import Mathlib

/-!
Verification development for `transformer.py`: a single-pass ETL script that
reads a zip archive of JSON tennis-tracking documents (entries named
`data/<seq>.json`), joins shot records with hit/bounce samples and player
positions, and writes one CSV row per resolvable shot.

Shallow embedding conventions:
* JSON numbers used in arithmetic or comparisons (`time`, `duration`,
  positions, `shot_no`) are `Rat`/`Int`; scalars the script copies verbatim
  without inspecting them (season, stroke, spin fields, sequence counters,
  identifiers) are modelled as `String`.
* Python exceptions (KeyError, IndexError, ValueError) are `Except String`;
  every such error is fatal in the script, and output is produced only on
  success, so eager sequencing of the lazy generator preserves the
  observable result (rows are written only after all processing finishes).
* The zip archive is the list of its entries, in `namelist()` order, as
  pairs of entry name and parsed JSON document.
-/

/-! Rational arithmetic must evaluate on concrete inputs (witness theorems
use `decide`), so the library's reducibility shields on `Rat` operations are
lifted; this does not change any definition, only lets them unfold. -/
set_option allowUnsafeReducibility true
attribute [semireducible] Rat.add Rat.mul Rat.sub Rat.div Rat.inv Rat.ofScientific

/-! ## Python primitives -/

/-- Python list indexing `xs[i]`: negative indices count from the end;
out-of-range access is an IndexError, modelled as `none`. -/
def pyGet {α : Type} (xs : List α) (i : Int) : Option α :=
  let j : Int := if i < 0 then i + xs.length else i
  if 0 ≤ j then xs[j.toNat]? else none

/-- Round a rational to the nearest integer, ties to even — the rounding
Python's `timedelta` applies to fractional microseconds. -/
def roundHalfEven (q : Rat) : Int :=
  let f : Int := Int.fdiv q.num q.den
  let r : Rat := q - (f : Rat)
  if r < 1/2 then f
  else if (1:Rat)/2 < r then f + 1
  else if f % 2 = 0 then f else f + 1

/-- Python `int(s)` on a string: optional surrounding ASCII whitespace,
optional sign, then one or more ASCII digits (`none` is a ValueError).
Unicode digits and digit-group underscores cannot occur in the segments the
script parses (they are produced by splitting on `_`), so they are out of
scope. -/
def pyInt (s : String) : Option Int :=
  let cs := (s.toList.dropWhile Char.isWhitespace).reverse
  let cs := (cs.dropWhile Char.isWhitespace).reverse
  let (neg, ds) : Bool × List Char :=
    match cs with
    | '-' :: rest => (true, rest)
    | '+' :: rest => (false, rest)
    | rest => (false, rest)
  if ds ≠ [] ∧ ds.all Char.isDigit then
    let n : Nat := ds.foldl (fun a c => a * 10 + (c.toNat - 48)) 0
    some (if neg then -(n : Int) else (n : Int))
  else none

/-! ## The regex `data/(.+?)\.json` under `re.search`

`re.search` scans for the leftmost start position admitting a match; the
lazy group `(.+?)` then takes the fewest (≥ 1) non-newline characters such
that the literal `.json` follows. -/

/-- The lazy group: shortest non-empty newline-free prefix of `t` that is
followed by the literal `.json`. -/
def lazyGroup : List Char → Option (List Char)
  | [] => none
  | c :: t =>
    if c = '\n' then none
    else if ".json".toList.isPrefixOf t then some [c]
    else
      match lazyGroup t with
      | some g => some (c :: g)
      | none => none

/-- `re.search(r"data/(.+?)\.json", s)`, returning `group(1)`: try each
start position left to right; at a position starting with `data/`, match
the lazy group against the remainder. -/
def reSearch : List Char → Option (List Char)
  | [] => none
  | c :: t =>
    if "data/".toList.isPrefixOf (c :: t) then
      match lazyGroup ((c :: t).drop 5) with
      | some g => some g
      | none => reSearch t
    else reSearch t

/-- String wrapper for `reSearch`. -/
def reSearchStr (s : String) : Option String :=
  (reSearch s.toList).map (fun g => String.mk g)

/-! ## Proleptic-Gregorian calendar (Python `datetime` arithmetic) -/

/-- Days from 1970-01-01 to the civil date `y-m-d` (Hinnant's algorithm). -/
def daysFromCivil (y : Int) (m d : Nat) : Int :=
  let y2 : Int := if m ≤ 2 then y - 1 else y
  let era : Int := Int.fdiv y2 400
  let yoe : Int := y2 - era * 400
  let mp : Int := if 2 < m then (m : Int) - 3 else (m : Int) + 9
  let doy : Int := Int.fdiv (153 * mp + 2) 5 + (d : Int) - 1
  let doe : Int := yoe * 365 + Int.fdiv yoe 4 - Int.fdiv yoe 100 + doy
  era * 146097 + doe - 719468

/-- Inverse of `daysFromCivil`. -/
def civilFromDays (z0 : Int) : Int × Nat × Nat :=
  let z : Int := z0 + 719468
  let era : Int := Int.fdiv z 146097
  let doe : Int := z - era * 146097
  let yoe : Int :=
    Int.fdiv (doe - Int.fdiv doe 1460 + Int.fdiv doe 36524 - Int.fdiv doe 146096) 365
  let y : Int := yoe + era * 400
  let doy : Int := doe - (365 * yoe + Int.fdiv yoe 4 - Int.fdiv yoe 100)
  let mp : Int := Int.fdiv (5 * doy + 2) 153
  let d : Int := doy - Int.fdiv (153 * mp + 2) 5 + 1
  let m : Int := if mp < 10 then mp + 3 else mp - 9
  (if m ≤ 2 then y + 1 else y, m.toNat, d.toNat)

/-- Python `date.toordinal()`: 0001-01-01 is day 1. -/
def toOrdinal (y : Int) (m d : Nat) : Int :=
  daysFromCivil y m d + 719163

/-- Inverse of `toOrdinal`. -/
def fromOrdinal (n : Int) : Int × Nat × Nat :=
  civilFromDays (n - 719163)

/-- A naive Python `datetime` (no tzinfo — the strptime format the script
uses treats the trailing `Z` as a literal and produces a naive value).
Python restricts `year` to 1..9999; arithmetic leaving that range raises
OverflowError, which is outside the inputs any claim exercises. -/
structure PyDateTime where
  year : Nat
  month : Nat
  day : Nat
  hour : Nat
  minute : Nat
  second : Nat
  microsecond : Nat
deriving DecidableEq, Repr

/-- Whether `y` is a Gregorian leap year. -/
def isLeap (y : Nat) : Bool :=
  y % 4 = 0 && (y % 100 ≠ 0 || y % 400 = 0)

/-- Length of month `m` of year `y`. -/
def daysInMonth (y m : Nat) : Nat :=
  if m = 2 then (if isLeap y then 29 else 28)
  else if m = 4 ∨ m = 6 ∨ m = 9 ∨ m = 11 then 30
  else 31

/-- Greedily read up to `maxN` ASCII digits. -/
def readDigits : Nat → List Char → List Char × List Char
  | 0, cs => ([], cs)
  | _ + 1, [] => ([], [])
  | maxN + 1, c :: cs =>
    if c.isDigit then
      let (ds, rest) := readDigits maxN cs
      (c :: ds, rest)
    else ([], c :: cs)

/-- Numeric value of a digit string. -/
def digitsVal (ds : List Char) : Nat :=
  ds.foldl (fun a c => a * 10 + (c.toNat - 48)) 0

/-- Expect a literal character. -/
def expectChar (c : Char) : List Char → Option (List Char)
  | [] => none
  | c2 :: cs => if c2 = c then some cs else none

/-- `datetime.strptime(s, "%Y-%m-%dT%H:%M:%S.%fZ")`.
`%Y` is exactly four digits; `%m` `%d` `%H` `%M` `%S` are one or two digits;
`%f` is one to six digits, right-padded with zeros to microseconds; `Z` is a
literal; the whole string must be consumed; field ranges are validated as by
the `datetime` constructor.  `none` is a ValueError. -/
def pyStrptime (s : String) : Option PyDateTime := do
  let cs := s.toList
  let (yd, r) := readDigits 4 cs
  if yd.length ≠ 4 then none else
  let r ← expectChar '-' r
  let (mod, r) := readDigits 2 r
  if mod.length = 0 then none else
  let r ← expectChar '-' r
  let (dd, r) := readDigits 2 r
  if dd.length = 0 then none else
  let r ← expectChar 'T' r
  let (hd, r) := readDigits 2 r
  if hd.length = 0 then none else
  let r ← expectChar ':' r
  let (mid, r) := readDigits 2 r
  if mid.length = 0 then none else
  let r ← expectChar ':' r
  let (sd, r) := readDigits 2 r
  if sd.length = 0 then none else
  let r ← expectChar '.' r
  let (fd, r) := readDigits 6 r
  if fd.length = 0 then none else
  let r ← expectChar 'Z' r
  if r ≠ [] then none else
  let y := digitsVal yd
  let mo := digitsVal mod
  let d := digitsVal dd
  let h := digitsVal hd
  let mi := digitsVal mid
  let s2 := digitsVal sd
  let us := digitsVal fd * 10 ^ (6 - fd.length)
  if 1 ≤ y ∧ 1 ≤ mo ∧ mo ≤ 12 ∧ 1 ≤ d ∧ d ≤ daysInMonth y mo ∧
      h ≤ 23 ∧ mi ≤ 59 ∧ s2 ≤ 59 then
    some ⟨y, mo, d, h, mi, s2, us⟩
  else none

/-- `dt + timedelta(seconds=q)`: the delta's fractional microseconds are
rounded half-to-even, then the sum is exact integer arithmetic on
(ordinal, time-of-day). -/
def pyAddSeconds (dt : PyDateTime) (q : Rat) : PyDateTime :=
  let deltaUs : Int := roundHalfEven (q * 1000000)
  let totalUs : Int :=
    toOrdinal dt.year dt.month dt.day * 86400000000 +
      ((dt.hour * 3600 + dt.minute * 60 + dt.second : Nat) : Int) * 1000000 +
      (dt.microsecond : Int) + deltaUs
  let ord : Int := Int.fdiv totalUs 86400000000
  let rem : Nat := (totalUs - ord * 86400000000).toNat
  let ymd := fromOrdinal ord
  let secs := rem / 1000000
  { year := ymd.1.toNat, month := ymd.2.1, day := ymd.2.2,
    hour := secs / 3600, minute := secs / 60 % 60, second := secs % 60,
    microsecond := rem % 1000000 }

/-- Zero-pad a natural number to `w` digits. -/
def padNum (w : Nat) (n : Nat) : String :=
  let s := Nat.repr n
  String.mk (List.replicate (w - s.length) '0') ++ s

/-- `datetime.isoformat()` on a naive value: no offset suffix; the
`.ffffff` part appears only when the microsecond field is non-zero. -/
def pyIsoformat (dt : PyDateTime) : String :=
  padNum 4 dt.year ++ "-" ++ padNum 2 dt.month ++ "-" ++ padNum 2 dt.day ++
    "T" ++ padNum 2 dt.hour ++ ":" ++ padNum 2 dt.minute ++ ":" ++
    padNum 2 dt.second ++
    (if dt.microsecond = 0 then "" else "." ++ padNum 6 dt.microsecond)

/-! ## Data model (the JSON schema the script relies on) -/

/-- A 3-d ball position `ball.pos`. -/
structure Pos3 where
  x : Rat
  y : Rat
  z : Rat
deriving DecidableEq, Repr

/-- A 2-d player position `pos`. -/
structure Pos2 where
  x : Rat
  y : Rat
deriving DecidableEq, Repr

/-- One element of a sample's `players` array. -/
structure SamplePlayer where
  team : String
  pos : Pos2
deriving DecidableEq, Repr

/-- One element of `samples`: a timestamped tracking event, optionally
tagged `"hit"` or `"bounce"`. -/
structure Sample where
  event : Option String
  time : Rat
  ball : Pos3
  players : List SamplePlayer
deriving DecidableEq, Repr

/-- A shot's `spin` object. -/
structure Spin where
  type : String
  rpm : String
deriving DecidableEq, Repr

/-- One element of `shots`. -/
structure Shot where
  shot_no : Int
  team : String
  time_utc : String
  duration : Rat
  stroke : String
  spin : Spin
  call : String
deriving DecidableEq, Repr

/-- One element of the match-level `players` roster. -/
structure RosterPlayer where
  team : String
  external_id : String
deriving DecidableEq, Repr

/-- The `match` object (used only from the first document). -/
structure MatchInfo where
  season : String
  tournament_id : String
  draw_code : String
  players : List RosterPlayer
deriving DecidableEq, Repr

/-- The `sequences` object: scalar counters copied verbatim into rows. -/
structure Sequences where
  set : String
  game : String
  point : String
  serve : String
  rally : String
deriving DecidableEq, Repr

/-- One JSON document from the archive. `matchData` models the `match` key,
absent in documents that do not carry it (only the first is read). -/
structure Doc where
  matchData : Option MatchInfo
  sequences : Sequences
  samples : List Sample
  shots : List Shot
deriving DecidableEq, Repr

/-- A CSV cell that is either a copied number or a literal string (the
bounce columns hold `""` when no bounce qualifies). -/
inductive Cell where
  | num (q : Rat)
  | str (s : String)
deriving DecidableEq, Repr

/-- One output row, fields in the dict-literal order of the source. -/
structure Row where
  season : String
  tournament_id : String
  draw_code : String
  set : String
  game : String
  point : String
  serve : String
  rally : String
  shot_n : Int
  hitter_external_id : String
  stroke : String
  spin_type : String
  spin_rpm : String
  call : String
  shot_start_timestamp : String
  shot_end_timestamp : String
  ball_hit_x : Rat
  ball_hit_y : Rat
  ball_hit_z : Rat
  ball_bounce_x : Cell
  ball_bounce_y : Cell
  hitter_x : Rat
  hitter_y : Rat
  receiver_x : Rat
  receiver_y : Rat
deriving DecidableEq, Repr

/-! ## Archive Reader (`sort_files`, `files_content`; transformer.py 20-53) -/

/-- Strict lexicographic order on integer tuples — Python list comparison
on the parsed filename sequences. -/
def seqLt : List Int → List Int → Bool
  | [], [] => false
  | [], _ :: _ => true
  | _ :: _, [] => false
  | a :: as, b :: bs => if a < b then true else if b < a then false else seqLt as bs

/-- Python `str.split("_")`: split on every underscore, keeping empty
segments (so `"a__b"` gives three segments and `""` gives one). -/
def splitUnderscore : List Char → List (List Char)
  | [] => [[]]
  | c :: t =>
    let r := splitUnderscore t
    if c = '_' then [] :: r
    else
      match r with
      | [] => [[c]]
      | s :: rest => (c :: s) :: rest

/-- Parse `match.group(1).split("_")` as a list of integers
(`[int(x) for x in ...]`); `none` is the fatal ValueError. -/
def parseSegs (g : String) : Option (List Int) :=
  (splitUnderscore g.toList).mapM (fun s => pyInt (String.mk s))

/-- Stable ascending insertion by the tuple key: the new pair goes after
every pair whose key is not strictly greater — the placement Python's
stable `list.sort(key=...)` gives each element. -/
def insertAsc (x : List Int × String) : List (List Int × String) → List (List Int × String)
  | [] => [x]
  | y :: ys => if seqLt x.1 y.1 then x :: y :: ys else y :: insertAsc x ys

/-- Stable sort of the (key, name) pairs, as `sorted_list.sort(key=lambda x: x[0])`. -/
def sortPairs (ps : List (List Int × String)) : List (List Int × String) :=
  ps.foldl (fun acc x => insertAsc x acc) []

/-- The collection loop of `sort_files` (transformer.py 29-34): keep the
regex group and parsed key of each matching entry, in archive order;
a non-numeric segment is a fatal ValueError. -/
def collectEntries : List String → Except String (List (List Int × String))
  | [] => .ok []
  | n :: rest =>
    match reSearchStr n with
    | none => collectEntries rest
    | some g =>
      match parseSegs g with
      | none => .error "ValueError: invalid literal for int() with base 10"
      | some key =>
        match collectEntries rest with
        | .error e => .error e
        | .ok tl => .ok ((key, g) :: tl)

/-- `sort_files` (transformer.py 23-37): the group names of the matching
entries, sorted ascending by integer-tuple key. -/
def sort_files (file_list : List String) : Except String (List String) :=
  match collectEntries file_list with
  | .error e => .error e
  | .ok ps => .ok ((sortPairs ps).map (fun p => p.2))

/-- `zip_ref.open(name)`: zipfile resolves a name through a dict built in
entry order, so a duplicate full name resolves to the last occurrence. -/
def lookupZip (ar : List (String × Doc)) (n : String) : Option Doc :=
  (ar.reverse.find? (fun e => e.1 == n)).map (fun e => e.2)

/-- `files_content` (transformer.py 40-53): sort the entry names, then for
each group `g` open and parse `data/<g>.json`, yielding (name, document)
pairs.  A missing member is a fatal KeyError. -/
def files_content (ar : List (String × Doc)) : Except String (List (String × Doc)) :=
  match sort_files (ar.map (fun e => e.1)) with
  | .error e => .error e
  | .ok names =>
    names.mapM (fun g =>
      match lookupZip ar ("data/" ++ g ++ ".json") with
      | none => .error "KeyError: there is no item named in the archive"
      | some d => .ok (g, d))

/-! ## Shot Extractor (transformer.py 56-144) -/

/-- The partition loop of transformer.py 76-81: samples tagged `"hit"` and
samples tagged `"bounce"`, each in original order. -/
def splitEvents : List Sample → List Sample × List Sample
  | [] => ([], [])
  | s :: rest =>
    let hb := splitEvents rest
    (if s.event == some "hit" then s :: hb.1 else hb.1,
     if s.event == some "bounce" then s :: hb.2 else hb.2)

/-- Stable descending insertion by a boolean key: the new element goes
after every element whose key is at least its own.  This is the element
placement of Python's stable `sorted(..., key=..., reverse=True)`. -/
def insertDescBool {α : Type} (key : α → Bool) (x : α) : List α → List α
  | [] => [x]
  | y :: ys => if key x && !key y then x :: y :: ys else y :: insertDescBool key x ys

/-- `sorted(xs, key=key, reverse=True)` for a boolean key (transformer.py
107-109): stable, all `true`-keyed elements first. -/
def pySortedDescBool {α : Type} (key : α → Bool) (xs : List α) : List α :=
  xs.foldl (fun acc x => insertDescBool key x acc) []

/-- `players[shot["team"]]` where `players` is the dict comprehension of
transformer.py line 70: later roster entries with the same team overwrite
earlier ones, so lookup returns the last match; `none` is a KeyError. -/
def dictLookup (ps : List RosterPlayer) (t : String) : Option RosterPlayer :=
  ps.reverse.find? (fun p => p.team == t)

/-- Whether a bounce sample's time lies strictly inside the shot window
(transformer.py 102). -/
def bounceQualifies (hitTime duration : Rat) (b : Sample) : Bool :=
  decide (hitTime < b.time) && decide (b.time < hitTime + duration)

/-- `end_time` (transformer.py 95): platform ISO rendering of
start + duration, with a literal `Z` appended. -/
def endTimeOf (start_time : PyDateTime) (duration : Rat) : String :=
  pyIsoformat (pyAddSeconds start_time duration) ++ "Z"

/-- The row dict literal (transformer.py 116-142), given the values the
loop body resolved. -/
def buildRow (m : MatchInfo) (seqs : Sequences) (shot : Shot)
    (start_time : PyDateTime) (hit : Sample) (bounce : Option Sample)
    (pl : RosterPlayer) (p0 p1 : SamplePlayer) : Row :=
  { season := m.season
    tournament_id := m.tournament_id
    draw_code := m.draw_code
    set := seqs.set
    game := seqs.game
    point := seqs.point
    serve := seqs.serve
    rally := seqs.rally
    shot_n := shot.shot_no
    hitter_external_id := pl.external_id
    stroke := shot.stroke
    spin_type := shot.spin.type
    spin_rpm := shot.spin.rpm
    call := shot.call
    shot_start_timestamp := shot.time_utc
    shot_end_timestamp := endTimeOf start_time shot.duration
    ball_hit_x := hit.ball.x
    ball_hit_y := hit.ball.y
    ball_hit_z := hit.ball.z
    ball_bounce_x := match bounce with | some b => .num b.ball.x | none => .str ""
    ball_bounce_y := match bounce with | some b => .num b.ball.y | none => .str ""
    hitter_x := p0.pos.x
    hitter_y := p0.pos.y
    receiver_x := p1.pos.x
    receiver_y := p1.pos.y }

/-- The body of the shot loop (transformer.py 84-144) for one shot:
`ok none` is the silent skip of lines 88-89, `error` a fatal exception,
`ok (some row)` an emitted row.  Failure points appear in the evaluation
order of the source: the timestamp parse (94), the hit index (98), the
roster lookup (126), then the two position indexes (138, 140). -/
def shotRow (m : MatchInfo) (seqs : Sequences) (hits bounces : List Sample)
    (shot : Shot) : Except String (Option Row) :=
  if shot.shot_no > (hits.length : Int) then .ok none
  else
    match pyStrptime shot.time_utc with
    | none => .error "ValueError: time data does not match format"
    | some start_time =>
      match pyGet hits (shot.shot_no - 1) with
      | none => .error "IndexError: list index out of range"
      | some hit =>
        let bounce := bounces.find? (bounceQualifies hit.time shot.duration)
        let hitPlayersPositions :=
          pySortedDescBool (fun x => x.team == shot.team) hit.players
        match dictLookup m.players shot.team with
        | none => .error "KeyError: team not in players"
        | some pl =>
          match pyGet hitPlayersPositions 0 with
          | none => .error "IndexError: list index out of range"
          | some p0 =>
            match pyGet hitPlayersPositions 1 with
            | none => .error "IndexError: list index out of range"
            | some p1 =>
              .ok (some (buildRow m seqs shot start_time hit bounce pl p0 p1))

/-- The shot loop over one document's `shots` (transformer.py 84-144),
accumulating emitted rows in order. -/
def processShots (m : MatchInfo) (seqs : Sequences) (hits bounces : List Sample) :
    List Shot → Except String (List Row)
  | [] => .ok []
  | s :: rest =>
    match shotRow m seqs hits bounces s with
    | .error e => .error e
    | .ok none => processShots m seqs hits bounces rest
    | .ok (some r) =>
      match processShots m seqs hits bounces rest with
      | .error e => .error e
      | .ok rs => .ok (r :: rs)

/-- The per-document work of the main loop body (transformer.py 72-144),
once the match metadata is available. -/
def processDoc (m : MatchInfo) (d : Doc) : Except String (List Row) :=
  processShots m d.sequences (splitEvents d.samples).1 (splitEvents d.samples).2 d.shots

/-- The main loop (transformer.py 64-144): the first document must carry
the `match` object (otherwise a fatal KeyError); its metadata is reused for
every later document, and per-document row lists are appended in document
order. -/
def processDocsAux (m0 : Option MatchInfo) :
    List (String × Doc) → Except String (List Row)
  | [] => .ok []
  | e :: rest =>
    let m? : Except String MatchInfo :=
      match m0 with
      | some m => .ok m
      | none =>
        match e.2.matchData with
        | some m => .ok m
        | none => .error "KeyError: match"
    match m? with
    | .error er => .error er
    | .ok m =>
      match processDoc m e.2 with
      | .error er => .error er
      | .ok rs =>
        match processDocsAux (some m) rest with
        | .error er => .error er
        | .ok rest' => .ok (rs ++ rest')

/-- Same loop, but keeping the per-document row lists separate; used to
state that the output is grouped by source document. -/
def docRowLists (m0 : Option MatchInfo) :
    List (String × Doc) → Except String (List (List Row))
  | [] => .ok []
  | e :: rest =>
    let m? : Except String MatchInfo :=
      match m0 with
      | some m => .ok m
      | none =>
        match e.2.matchData with
        | some m => .ok m
        | none => .error "KeyError: match"
    match m? with
    | .error er => .error er
    | .ok m =>
      match processDoc m e.2 with
      | .error er => .error er
      | .ok rs =>
        match docRowLists (some m) rest with
        | .error er => .error er
        | .ok rest' => .ok (rs :: rest')

/-! ## Row Writer (transformer.py 148-153) -/

/-- Double internal quotes, per the csv module's quoting. -/
def escQuotes : List Char → List Char
  | [] => []
  | c :: r => if c = '"' then '"' :: '"' :: escQuotes r else c :: escQuotes r

/-- QUOTE_MINIMAL: quote a field only when it contains the delimiter, a
quote, or a line break. -/
def csvField (s : String) : String :=
  if s.toList.any (fun c => c = ',' || c = '"' || c = '\n' || c = '\r') then
    "\"" ++ String.mk (escQuotes s.toList) ++ "\""
  else s

/-- Rendering of a numeric cell.  Python renders numbers through `str`;
this canonical rational rendering abstracts that (no claim depends on the
textual form of a number). -/
def ratStr (q : Rat) : String :=
  if q.den = 1 then toString q.num else toString q.num ++ "/" ++ toString q.den

/-- Rendering of one cell. -/
def cellStr : Cell → String
  | .num q => ratStr q
  | .str s => s

/-- The header: key order of the first row's dict. -/
def headerNames : List String :=
  ["season", "tournament_id", "draw_code", "set", "game", "point", "serve",
   "rally", "shot_n", "hitter_external_id", "stroke", "spin_type", "spin_rpm",
   "call", "shot_start_timestamp", "shot_end_timestamp", "ball_hit_x",
   "ball_hit_y", "ball_hit_z", "ball_bounce_x", "ball_bounce_y", "hitter_x",
   "hitter_y", "receiver_x", "receiver_y"]

/-- The cells of one row, in dict order. -/
def rowCells (r : Row) : List String :=
  [r.season, r.tournament_id, r.draw_code, r.set, r.game, r.point, r.serve,
   r.rally, toString r.shot_n, r.hitter_external_id, r.stroke, r.spin_type,
   r.spin_rpm, r.call, r.shot_start_timestamp, r.shot_end_timestamp,
   ratStr r.ball_hit_x, ratStr r.ball_hit_y, ratStr r.ball_hit_z,
   cellStr r.ball_bounce_x, cellStr r.ball_bounce_y, ratStr r.hitter_x,
   ratStr r.hitter_y, ratStr r.receiver_x, ratStr r.receiver_y]

/-- One CSV record (the csv module terminates records with CRLF). -/
def csvLine (cells : List String) : String :=
  String.intercalate "," (cells.map csvField) ++ "\r\n"

/-- The writer block (transformer.py 148-153): deriving the header from
`rows[0]` is a fatal IndexError when the row list is empty, so CSV content
exists only for a non-empty row list. -/
def writeCsv : List Row → Except String String
  | [] => .error "IndexError: list index out of range"
  | r :: rest =>
    .ok ((csvLine headerNames) ++ String.join ((r :: rest).map (fun x => csvLine (rowCells x))))

/-! ## The whole program -/

/-- All rows accumulated over the whole run. -/
def transformerRows (ar : List (String × Doc)) : Except String (List Row) :=
  match files_content ar with
  | .error e => .error e
  | .ok docs => processDocsAux none docs

/-- The whole script: the produced `result.csv` content, or the fatal
error.  Output content exists only on success. -/
def transformer (ar : List (String × Doc)) : Except String String :=
  match transformerRows ar with
  | .error e => .error e
  | .ok rows => writeCsv rows

/-! ## Helper lemmas -/

theorem pyGet_of_nonneg {α : Type} (xs : List α) (i : Int) (h : 0 ≤ i) :
    pyGet xs i = xs[i.toNat]? := by
  simp only [pyGet]
  rw [if_neg (show ¬ i < 0 by omega), if_pos h]

theorem pyGet_of_neg {α : Type} (xs : List α) (i : Int) (h : i < 0) :
    pyGet xs i = if 0 ≤ i + xs.length then xs[(i + xs.length).toNat]? else none := by
  simp only [pyGet]
  rw [if_pos h]

theorem pyGet_zero {α : Type} (xs : List α) : pyGet xs 0 = xs[0]? := by
  simpa using pyGet_of_nonneg xs 0 le_rfl

theorem pyGet_one {α : Type} (xs : List α) : pyGet xs 1 = xs[1]? := by
  simpa using pyGet_of_nonneg xs 1 (by omega)

/-- Inserting into a partitioned list of all-true keys followed by
all-false keys keeps the partition, with the new element appended to its
block (this is the stable placement). -/
theorem insertDescBool_partitioned {α : Type} (key : α → Bool) (x : α) :
    ∀ (A B : List α), (∀ a ∈ A, key a = true) → (∀ b ∈ B, key b = false) →
      insertDescBool key x (A ++ B) =
        if key x then A ++ (x :: B) else A ++ (B ++ [x]) := by
  intro A
  induction A with
  | nil =>
    intro B _ hB
    induction B with
    | nil => simp [insertDescBool]
    | cons b bs ih =>
      have hb : key b = false := hB b (by simp)
      have ih2 := ih (fun y hy => hB y (by simp [hy]))
      by_cases hx : key x = true
      · simp [insertDescBool, hx, hb]
      · simp only [Bool.not_eq_true] at hx
        simp only [List.nil_append] at ih2 ⊢
        simp [insertDescBool, hx, hb, ih2]
  | cons a A ih =>
    intro B hA hB
    have ha : key a = true := hA a (by simp)
    have ih2 := ih B (fun y hy => hA y (by simp [hy])) hB
    by_cases hx : key x = true <;>
      simp [insertDescBool, ha, hx, ih2]

/-- The fold of stable insertions computes the stable partition:
`true`-keyed elements first, each block in original order. -/
theorem pySortedDescBool_eq_partition {α : Type} (key : α → Bool) (xs : List α) :
    pySortedDescBool key xs = xs.filter key ++ xs.filter (fun a => !key a) := by
  suffices h : ∀ (A B : List α), (∀ a ∈ A, key a = true) → (∀ b ∈ B, key b = false) →
      xs.foldl (fun acc x => insertDescBool key x acc) (A ++ B) =
        (A ++ xs.filter key) ++ (B ++ xs.filter (fun a => !key a)) by
    have h0 := h [] [] (by simp) (by simp)
    simpa [pySortedDescBool] using h0
  induction xs with
  | nil => intro A B _ _; simp
  | cons x xs ih =>
    intro A B hA hB
    simp only [List.foldl_cons]
    rw [insertDescBool_partitioned key x A B hA hB]
    by_cases hx : key x = true
    · rw [if_pos hx]
      have := ih (A ++ [x]) B
        (by intro a ha; rcases List.mem_append.mp ha with h1 | h1
            · exact hA a h1
            · simp at h1; subst h1; exact hx) hB
      simp only [List.append_assoc, List.singleton_append] at this
      rw [this]
      simp [List.filter_cons, hx, List.append_assoc]
    · simp only [Bool.not_eq_true] at hx
      rw [if_neg (by simp [hx])]
      have := ih A (B ++ [x]) hA
        (by intro b hb; rcases List.mem_append.mp hb with h1 | h1
            · exact hB b h1
            · simp at h1; subst h1; exact hx)
      rw [this]
      simp [List.filter_cons, hx, List.append_assoc]

theorem pySortedDescBool_length {α : Type} (key : α → Bool) (xs : List α) :
    (pySortedDescBool key xs).length = xs.length := by
  rw [pySortedDescBool_eq_partition]
  rw [List.length_append]
  exact (List.length_eq_length_filter_add key).symm

/-- Resolving all the match scrutinees of the loop body: the characterized
success case. -/
theorem shotRow_eq_ok (m : MatchInfo) (seqs : Sequences)
    (hits bounces : List Sample) (shot : Shot) (st : PyDateTime) (hit : Sample)
    (pl : RosterPlayer) (p0 p1 : SamplePlayer)
    (hg : ¬ shot.shot_no > (hits.length : Int))
    (hp : pyStrptime shot.time_utc = some st)
    (hh : pyGet hits (shot.shot_no - 1) = some hit)
    (hl : dictLookup m.players shot.team = some pl)
    (h0 : pyGet (pySortedDescBool (fun x => x.team == shot.team) hit.players) 0 = some p0)
    (h1 : pyGet (pySortedDescBool (fun x => x.team == shot.team) hit.players) 1 = some p1) :
    shotRow m seqs hits bounces shot =
      .ok (some (buildRow m seqs shot st hit
        (bounces.find? (bounceQualifies hit.time shot.duration)) pl p0 p1)) := by
  unfold shotRow
  rw [if_neg hg, hp, hh, hl]
  simp only []
  rw [h0, h1]


/-- Inversion of a successful loop-body run: every scrutinee resolved, and
the row is the dict literal over the resolved values. -/
theorem shotRow_ok_inv (m : MatchInfo) (seqs : Sequences)
    (hits bounces : List Sample) (shot : Shot) (r : Row)
    (hr : shotRow m seqs hits bounces shot = .ok (some r)) :
    ∃ st hit pl p0 p1,
      pyStrptime shot.time_utc = some st ∧
      pyGet hits (shot.shot_no - 1) = some hit ∧
      dictLookup m.players shot.team = some pl ∧
      pyGet (pySortedDescBool (fun x => x.team == shot.team) hit.players) 0 = some p0 ∧
      pyGet (pySortedDescBool (fun x => x.team == shot.team) hit.players) 1 = some p1 ∧
      r = buildRow m seqs shot st hit
            (bounces.find? (bounceQualifies hit.time shot.duration)) pl p0 p1 := by
  unfold shotRow at hr
  split at hr
  · exact absurd hr (by simp)
  · split at hr
    · exact absurd hr (by simp)
    · rename_i st hp
      split at hr
      · exact absurd hr (by simp)
      · rename_i hit hh
        dsimp only [] at hr
        split at hr
        · exact absurd hr (by simp)
        · rename_i pl hl
          split at hr
          · exact absurd hr (by simp)
          · rename_i p0 h0
            split at hr
            · exact absurd hr (by simp)
            · rename_i p1 h1
              refine ⟨st, hit, pl, p0, p1, hp, hh, hl, h0, h1, ?_⟩
              simpa using hr.symm

/-- Companion success lemma: with the guard passed, a parsed timestamp, a
resolvable hit, a roster entry for the team and at least two listed player
positions, the loop body emits exactly one row. -/
theorem shotRow_emits (m : MatchInfo) (seqs : Sequences)
    (hits bounces : List Sample) (shot : Shot) (st : PyDateTime) (hit : Sample)
    (hg : ¬ shot.shot_no > (hits.length : Int))
    (hp : pyStrptime shot.time_utc = some st)
    (hh : pyGet hits (shot.shot_no - 1) = some hit)
    (hl : (dictLookup m.players shot.team).isSome)
    (hpp : 2 ≤ hit.players.length) :
    ∃ p0 p1, shotRow m seqs hits bounces shot =
      .ok (some (buildRow m seqs shot st hit
        (bounces.find? (bounceQualifies hit.time shot.duration)) 
        ((dictLookup m.players shot.team).get hl) p0 p1)) ∧
      pyGet (pySortedDescBool (fun x => x.team == shot.team) hit.players) 0 = some p0 ∧
      pyGet (pySortedDescBool (fun x => x.team == shot.team) hit.players) 1 = some p1 := by
  have hlen : (pySortedDescBool (fun x => x.team == shot.team) hit.players).length =
      hit.players.length := pySortedDescBool_length _ _
  have h0' : 0 < (pySortedDescBool (fun x => x.team == shot.team) hit.players).length := by
    omega
  have h1' : 1 < (pySortedDescBool (fun x => x.team == shot.team) hit.players).length := by
    omega
  obtain ⟨p0, h0⟩ : ∃ a, (pySortedDescBool (fun x => x.team == shot.team) hit.players)[0]? =
      some a := ⟨_, List.getElem?_eq_getElem h0'⟩
  obtain ⟨p1, h1⟩ : ∃ a, (pySortedDescBool (fun x => x.team == shot.team) hit.players)[1]? =
      some a := ⟨_, List.getElem?_eq_getElem h1'⟩
  refine ⟨p0, p1, ?_, ?_, ?_⟩
  · exact shotRow_eq_ok m seqs hits bounces shot st hit _ _ _ hg hp hh
      (Option.some_get hl).symm
      ((pyGet_zero _).trans h0) ((pyGet_one _).trans h1)
  · exact (pyGet_zero _).trans h0
  · exact (pyGet_one _).trans h1

/-- `find?` returns the earliest-indexed element satisfying the test. -/
theorem find?_eq_of_first {α : Type} (p : α → Bool) (l : List α) :
    ∀ (i : Nat) (hi : i < l.length),
      p (l.get ⟨i, hi⟩) = true →
      (∀ (j : Nat) (hj : j < l.length), j < i → p (l.get ⟨j, hj⟩) = false) →
      l.find? p = some (l.get ⟨i, hi⟩) := by
  induction l with
  | nil => intro i hi; simp at hi
  | cons x xs ih =>
    intro i hi hp hprev
    cases i with
    | zero =>
      exact List.find?_cons_of_pos _ hp
    | succ n =>
      have hx : p x = false := hprev 0 (by simp) (by omega)
      rw [List.find?_cons_of_neg _ (by simp [hx])]
      exact ih n (by simpa using hi) (by simpa using hp)
        (fun j hj hjn => by simpa using hprev (j + 1) (by simpa using hj) (by omega))

/-- Decidable equality for `Except`, so the model evaluates on concrete
inputs by `decide`. -/
instance {ε α : Type} [DecidableEq ε] [DecidableEq α] : DecidableEq (Except ε α) :=
  fun a b =>
    match a, b with
    | .ok x, .ok y => decidable_of_iff (x = y) ⟨fun h => by rw [h], fun h => by cases h; rfl⟩
    | .error x, .error y =>
      decidable_of_iff (x = y) ⟨fun h => by rw [h], fun h => by cases h; rfl⟩
    | .ok _, .error _ => isFalse (fun h => Except.noConfusion h)
    | .error _, .ok _ => isFalse (fun h => Except.noConfusion h)

/-! ## Concrete example inputs (the spec's round-trip scenario) -/

/-- Match metadata with two rostered players. -/
def exMatch : MatchInfo :=
  { season := "2023", tournament_id := "T1", draw_code := "M",
    players := [⟨"A", "pA"⟩, ⟨"B", "pB"⟩] }

/-- Sequence counters. -/
def exSeqs : Sequences := ⟨"1", "2", "3", "1", "4"⟩

/-- One hit-tagged sample at time 10, ball at (1,2,3); the hitting team's
player is listed second to exercise the reordering. -/
def exHit : Sample :=
  { event := some "hit", time := 10, ball := ⟨1, 2, 3⟩,
    players := [⟨"B", ⟨7, 8⟩⟩, ⟨"A", ⟨5, 6⟩⟩] }

/-- One bounce-tagged sample at time 10.5, ball at (4,5,0). -/
def exBounce : Sample :=
  { event := some "bounce", time := 21 / 2, ball := ⟨4, 5, 0⟩, players := [] }

/-- One shot: shot_no 1, team A, start 2023-01-01T00:00:00, duration 1 s. -/
def exShot : Shot :=
  { shot_no := 1, team := "A", time_utc := "2023-01-01T00:00:00.000000Z",
    duration := 1, stroke := "forehand", spin := ⟨"top", "1200"⟩, call := "in" }

/-- The document holding the scenario. -/
def exDoc : Doc :=
  { matchData := some exMatch, sequences := exSeqs,
    samples := [exHit, exBounce], shots := [exShot] }

/-- The row the scenario produces. -/
def exRow : Row :=
  { season := "2023", tournament_id := "T1", draw_code := "M",
    set := "1", game := "2", point := "3", serve := "1", rally := "4",
    shot_n := 1, hitter_external_id := "pA", stroke := "forehand",
    spin_type := "top", spin_rpm := "1200", call := "in",
    shot_start_timestamp := "2023-01-01T00:00:00.000000Z",
    shot_end_timestamp := "2023-01-01T00:00:01Z",
    ball_hit_x := 1, ball_hit_y := 2, ball_hit_z := 3,
    ball_bounce_x := .num 4, ball_bounce_y := .num 5,
    hitter_x := 5, hitter_y := 6, receiver_x := 7, receiver_y := 8 }

/-- A shot whose number exceeds the document's single hit. -/
def exShotBig : Shot := { exShot with shot_no := 5 }

/-- A shot with number 0 (selects the last hit by negative indexing). -/
def exShotZero : Shot := { exShot with shot_no := 0 }

/-- A shot with number -1 = -(hit count) in a one-hit document. -/
def exShotNeg : Shot := { exShot with shot_no := -1 }

/-! ## Claims -/

/-- C2: for every shot record whose 1-based shot_no satisfies
1 ≤ shot_no ≤ (number of hit-tagged samples in the same document), exactly
one row is emitted for that shot (the loop body returns `ok (some row)`),
and its ball_hit_x/y/z fields equal the ball position of the (shot_no)-th
hit-tagged sample in original sample order — positional selection —
independent of how many bounce samples exist. -/
theorem claim_C2_hit_fields (m : MatchInfo) (d : Doc) (shot : Shot)
    (st : PyDateTime) (hit : Sample)
    (h1 : 1 ≤ shot.shot_no)
    (h2 : shot.shot_no ≤ ((splitEvents d.samples).1.length : Int))
    (hhit : (splitEvents d.samples).1[(shot.shot_no - 1).toNat]? = some hit)
    (hp : pyStrptime shot.time_utc = some st)
    (hl : (dictLookup m.players shot.team).isSome)
    (hpp : 2 ≤ hit.players.length) :
    ∀ bounces : List Sample, ∃ r,
      shotRow m d.sequences (splitEvents d.samples).1 bounces shot = .ok (some r)
        ∧ r.ball_hit_x = hit.ball.x ∧ r.ball_hit_y = hit.ball.y
        ∧ r.ball_hit_z = hit.ball.z := by
  intro bounces
  have hg : ¬ shot.shot_no > ((splitEvents d.samples).1.length : Int) := by omega
  have hh : pyGet (splitEvents d.samples).1 (shot.shot_no - 1) = some hit := by
    rw [pyGet_of_nonneg _ _ (by omega)]; exact hhit
  obtain ⟨p0, p1, hok, -, -⟩ :=
    shotRow_emits m d.sequences _ bounces shot st hit hg hp hh hl hpp
  exact ⟨_, hok, rfl, rfl, rfl⟩

/-- Witness for C2: the round-trip scenario document; the emitted row's
hit fields are the hit sample's ball position (1, 2, 3). -/
theorem claim_C2_hit_fields_witness :
    ∃ r, shotRow exMatch exDoc.sequences (splitEvents exDoc.samples).1
        (splitEvents exDoc.samples).2 exShot = .ok (some r)
      ∧ r.ball_hit_x = exHit.ball.x ∧ r.ball_hit_y = exHit.ball.y
      ∧ r.ball_hit_z = exHit.ball.z :=
  claim_C2_hit_fields exMatch exDoc exShot ⟨2023, 1, 1, 0, 0, 0, 0⟩ exHit
    (by decide) (by decide) (by decide) (by decide) (by decide) (by decide)
    (splitEvents exDoc.samples).2

/-- Auxiliary for C3: a shot the loop body skips leaves the row list of the
whole shot loop unchanged, wherever it sits. -/
theorem processShots_skip (m : MatchInfo) (seqs : Sequences)
    (hits bounces : List Sample) (shot : Shot)
    (hs : shotRow m seqs hits bounces shot = .ok none) :
    ∀ pre post : List Shot,
      processShots m seqs hits bounces (pre ++ shot :: post) =
        processShots m seqs hits bounces (pre ++ post) := by
  intro pre post
  induction pre with
  | nil => simp [processShots, hs]
  | cons x xs ih =>
    simp only [List.cons_append, processShots, List.append_eq]
    rw [ih]

/-- C3: a shot whose shot_no exceeds the count of hit-tagged samples of its
document produces no row and no error (the loop body returns `ok none`),
and the rows of all other shots and documents are unchanged by its
presence. -/
theorem claim_C3_overflow_skipped (d : Doc) (shot : Shot)
    (h : shot.shot_no > (((splitEvents d.samples).1).length : Int)) :
    (∀ m seqs bounces, shotRow m seqs (splitEvents d.samples).1 bounces shot = .ok none)
    ∧ (∀ m pre post,
        processDoc m { d with shots := pre ++ shot :: post } =
          processDoc m { d with shots := pre ++ post })
    ∧ (∀ m0 name docs1 docs2 pre post,
        processDocsAux m0
            (docs1 ++ (name, { d with shots := pre ++ shot :: post }) :: docs2) =
          processDocsAux m0
            (docs1 ++ (name, { d with shots := pre ++ post }) :: docs2)) := by
  have hskip : ∀ m seqs bounces,
      shotRow m seqs (splitEvents d.samples).1 bounces shot = .ok none := by
    intro m seqs bounces
    unfold shotRow
    rw [if_pos h]
  have hdoc : ∀ m pre post,
      processDoc m { d with shots := pre ++ shot :: post } =
        processDoc m { d with shots := pre ++ post } := by
    intro m pre post
    unfold processDoc
    exact processShots_skip m d.sequences _ _ shot (hskip m d.sequences _) pre post
  have hps : ∀ (m : MatchInfo) (pre post : List Shot),
      processShots m d.sequences (splitEvents d.samples).1 (splitEvents d.samples).2
          (pre ++ shot :: post) =
        processShots m d.sequences (splitEvents d.samples).1 (splitEvents d.samples).2
          (pre ++ post) := by
    intro m pre post
    exact processShots_skip m d.sequences _ _ shot (hskip m d.sequences _) pre post
  refine ⟨hskip, hdoc, ?_⟩
  intro m0 name docs1 docs2 pre post
  induction docs1 generalizing m0 with
  | nil =>
    cases m0 with
    | none =>
      cases hd : d.matchData with
      | none => simp [processDocsAux, hd]
      | some m => simp [processDocsAux, hd, processDoc, hps m pre post]
    | some m => simp [processDocsAux, processDoc, hps m pre post]
  | cons e docs1 ih =>
    cases m0 with
    | none =>
      cases hd : e.2.matchData with
      | none => simp [processDocsAux, hd]
      | some m => simp [processDocsAux, hd, ih]
    | some m => simp [processDocsAux, ih]

/-- Witness for C3: shot_no 5 against a document with one hit-tagged
sample is skipped, and removing it does not change the document's rows. -/
theorem claim_C3_overflow_skipped_witness :
    shotRow exMatch exSeqs (splitEvents exDoc.samples).1
        (splitEvents exDoc.samples).2 exShotBig = .ok none
    ∧ processDoc exMatch { exDoc with shots := [exShot] ++ exShotBig :: [exShot] } =
        processDoc exMatch { exDoc with shots := [exShot] ++ [exShot] } :=
  ⟨(claim_C3_overflow_skipped exDoc exShotBig (by decide)).1 exMatch exSeqs _,
   (claim_C3_overflow_skipped exDoc exShotBig (by decide)).2.1 exMatch [exShot] [exShot]⟩

/-- C4: for every emitted row, the bounce used is the first entry of the
document's bounce-tagged samples, in original sample order, whose
timestamp t satisfies hit.time < t < hit.time + duration (strictly); if
two qualify the earlier-indexed one is used, and if none qualifies the
ball_bounce_x/ball_bounce_y fields are the empty string (a string, not a
missing or null value). -/
theorem claim_C4_bounce_selection (m : MatchInfo) (d : Doc) (shot : Shot)
    (hit : Sample) (r : Row)
    (hhit : pyGet (splitEvents d.samples).1 (shot.shot_no - 1) = some hit)
    (hr : shotRow m d.sequences (splitEvents d.samples).1 (splitEvents d.samples).2
            shot = .ok (some r)) :
    (∀ (i : Nat) (hi : i < (splitEvents d.samples).2.length),
        (hit.time < ((splitEvents d.samples).2.get ⟨i, hi⟩).time
          ∧ ((splitEvents d.samples).2.get ⟨i, hi⟩).time < hit.time + shot.duration) →
        (∀ (j : Nat) (hj : j < (splitEvents d.samples).2.length), j < i →
            ¬ (hit.time < ((splitEvents d.samples).2.get ⟨j, hj⟩).time
               ∧ ((splitEvents d.samples).2.get ⟨j, hj⟩).time < hit.time + shot.duration)) →
        r.ball_bounce_x = .num (((splitEvents d.samples).2.get ⟨i, hi⟩).ball.x)
          ∧ r.ball_bounce_y = .num (((splitEvents d.samples).2.get ⟨i, hi⟩).ball.y))
    ∧ ((∀ b ∈ (splitEvents d.samples).2,
          ¬ (hit.time < b.time ∧ b.time < hit.time + shot.duration)) →
        r.ball_bounce_x = .str "" ∧ r.ball_bounce_y = .str "") := by
  obtain ⟨st, hit2, pl, p0, p1, hp, hh2, hl, h0, h1, hreq⟩ :=
    shotRow_ok_inv m d.sequences _ _ shot r hr
  rw [hhit] at hh2
  cases hh2
  subst hreq
  constructor
  · intro i hi hq hprev
    have hfind : (splitEvents d.samples).2.find?
        (bounceQualifies hit.time shot.duration) =
        some ((splitEvents d.samples).2.get ⟨i, hi⟩) := by
      apply find?_eq_of_first
      · simp only [bounceQualifies, Bool.and_eq_true, decide_eq_true_iff]
        exact hq
      · intro j hj hji
        have hn := hprev j hj hji
        rw [bounceQualifies]
        by_cases hA : hit.time < ((splitEvents d.samples).2.get ⟨j, hj⟩).time
        · have hB : ¬ ((splitEvents d.samples).2.get ⟨j, hj⟩).time <
              hit.time + shot.duration := fun hB => hn ⟨hA, hB⟩
          simp only [List.get_eq_getElem] at hB
          simp [hB]
        · simp only [List.get_eq_getElem] at hA
          simp [hA]
    simp [buildRow, hfind]
  · intro hnone
    have hfind : (splitEvents d.samples).2.find?
        (bounceQualifies hit.time shot.duration) = none := by
      rw [List.find?_eq_none]
      intro b hb
      have := hnone b hb
      simp only [bounceQualifies, Bool.and_eq_true, decide_eq_true_iff]
      tauto
    simp [buildRow, hfind]

/-- Witness for C4: in the scenario the single bounce (index 0, time 10.5)
lies strictly inside (10, 11), so the row carries its ball position. -/
theorem claim_C4_bounce_selection_witness :
    exRow.ball_bounce_x = .num (((splitEvents exDoc.samples).2.get ⟨0, by decide⟩).ball.x)
      ∧ exRow.ball_bounce_y = .num (((splitEvents exDoc.samples).2.get ⟨0, by decide⟩).ball.y) :=
  (claim_C4_bounce_selection exMatch exDoc exShot exHit exRow (by decide) (by decide)).1
    0 (by decide) (by constructor <;> decide) (fun j hj hj0 => absurd hj0 (by omega))

/-- C5: for every emitted row, if exactly one entry of the hit sample's
two-entry player-position list has the shot's hitting team, that entry's
position goes to hitter_x/hitter_y and the other's to
receiver_x/receiver_y, regardless of input order; and the reordering is
the stable boolean partition, so entries with equal key keep their
original relative order. -/
theorem claim_C5_player_ordering (m : MatchInfo) (d : Doc) (shot : Shot)
    (hit : Sample) (p q : SamplePlayer) (r : Row)
    (hhit : pyGet (splitEvents d.samples).1 (shot.shot_no - 1) = some hit)
    (hpl : hit.players = [p, q])
    (hone : (p.team = shot.team ∧ q.team ≠ shot.team)
            ∨ (p.team ≠ shot.team ∧ q.team = shot.team))
    (hr : shotRow m d.sequences (splitEvents d.samples).1 (splitEvents d.samples).2
            shot = .ok (some r)) :
    ((p.team = shot.team →
        r.hitter_x = p.pos.x ∧ r.hitter_y = p.pos.y
          ∧ r.receiver_x = q.pos.x ∧ r.receiver_y = q.pos.y)
      ∧ (q.team = shot.team →
        r.hitter_x = q.pos.x ∧ r.hitter_y = q.pos.y
          ∧ r.receiver_x = p.pos.x ∧ r.receiver_y = p.pos.y))
    ∧ ∀ (key : SamplePlayer → Bool) (xs : List SamplePlayer),
        pySortedDescBool key xs = xs.filter key ++ xs.filter (fun a => !key a) := by
  obtain ⟨st, hit2, pl, p0, p1, hp, hh2, hl, h0, h1, hreq⟩ :=
    shotRow_ok_inv m d.sequences _ _ shot r hr
  rw [hhit] at hh2
  cases hh2
  subst hreq
  refine ⟨?_, fun key xs => pySortedDescBool_eq_partition key xs⟩
  rw [pySortedDescBool_eq_partition, hpl] at h0 h1
  rcases hone with ⟨hps, hqs⟩ | ⟨hps, hqs⟩
  · have hpb : (p.team == shot.team) = true := by simp [hps]
    have hqb : (q.team == shot.team) = false := by simp [hqs]
    have hsort : ([p, q].filter (fun x => x.team == shot.team) ++
        [p, q].filter (fun a => !(a.team == shot.team))) = [p, q] := by
      simp [List.filter_cons, hpb, hqb]
    rw [hsort, pyGet_zero] at h0
    rw [hsort, pyGet_one] at h1
    simp only [List.getElem?_cons_zero, Option.some_inj] at h0
    simp only [List.getElem?_cons_succ, List.getElem?_cons_zero, Option.some_inj] at h1
    subst h0; subst h1
    exact ⟨fun _ => ⟨rfl, rfl, rfl, rfl⟩, fun hq2 => absurd hq2 hqs⟩
  · have hpb : (p.team == shot.team) = false := by simp [hps]
    have hqb : (q.team == shot.team) = true := by simp [hqs]
    have hsort : ([p, q].filter (fun x => x.team == shot.team) ++
        [p, q].filter (fun a => !(a.team == shot.team))) = [q, p] := by
      simp [List.filter_cons, hpb, hqb]
    rw [hsort, pyGet_zero] at h0
    rw [hsort, pyGet_one] at h1
    simp only [List.getElem?_cons_zero, Option.some_inj] at h0
    simp only [List.getElem?_cons_succ, List.getElem?_cons_zero, Option.some_inj] at h1
    subst h0; subst h1
    exact ⟨fun hp2 => absurd hp2 hps, fun _ => ⟨rfl, rfl, rfl, rfl⟩⟩

/-- Witness for C5: the scenario lists team B's player first, yet the
emitted row has team A's position as hitter and B's as receiver. -/
theorem claim_C5_player_ordering_witness :
    exRow.hitter_x = (⟨"A", ⟨5, 6⟩⟩ : SamplePlayer).pos.x
      ∧ exRow.hitter_y = (⟨"A", ⟨5, 6⟩⟩ : SamplePlayer).pos.y
      ∧ exRow.receiver_x = (⟨"B", ⟨7, 8⟩⟩ : SamplePlayer).pos.x
      ∧ exRow.receiver_y = (⟨"B", ⟨7, 8⟩⟩ : SamplePlayer).pos.y :=
  ((claim_C5_player_ordering exMatch exDoc exShot exHit ⟨"B", ⟨7, 8⟩⟩ ⟨"A", ⟨5, 6⟩⟩ exRow
      (by decide) (by decide) (Or.inr (by constructor <;> decide)) (by decide)).1).2
    (by decide)

/-- C10: a row is assembled only when the selected hit sample lists at
least two player positions; with fewer, the run fails fatally with an
out-of-range index while reading the hitter or receiver position (and the
error branch is unreachable when every used hit sample lists ≥ 2). -/
theorem claim_C10_two_players :
    (∀ (m : MatchInfo) (seqs : Sequences) (hits bounces : List Sample)
        (shot : Shot) (r : Row),
        shotRow m seqs hits bounces shot = .ok (some r) →
        ∃ hit, pyGet hits (shot.shot_no - 1) = some hit ∧ 2 ≤ hit.players.length)
    ∧ (∀ (m : MatchInfo) (seqs : Sequences) (hits bounces : List Sample)
        (shot : Shot) (st : PyDateTime) (hit : Sample),
        ¬ shot.shot_no > (hits.length : Int) →
        pyStrptime shot.time_utc = some st →
        pyGet hits (shot.shot_no - 1) = some hit →
        (dictLookup m.players shot.team).isSome →
        hit.players.length < 2 →
        shotRow m seqs hits bounces shot =
          .error "IndexError: list index out of range") := by
  constructor
  · intro m seqs hits bounces shot r hr
    obtain ⟨st, hit, pl, p0, p1, hp, hh, hl, h0, h1, hreq⟩ :=
      shotRow_ok_inv m seqs hits bounces shot r hr
    refine ⟨hit, hh, ?_⟩
    rw [pyGet_one] at h1
    have : 1 < (pySortedDescBool (fun x => x.team == shot.team) hit.players).length := by
      by_contra hc
      rw [List.getElem?_eq_none (by omega)] at h1
      exact Option.noConfusion h1
    rw [pySortedDescBool_length] at this
    omega
  · intro m seqs hits bounces shot st hit hg hp hh hl hlt
    obtain ⟨pl, hpl⟩ := Option.isSome_iff_exists.mp hl
    have hslen : (pySortedDescBool (fun x => x.team == shot.team) hit.players).length =
        hit.players.length := pySortedDescBool_length _ _
    unfold shotRow
    rw [if_neg hg, hp, hh, hpl]
    dsimp only []
    rcases (by omega : hit.players.length = 0 ∨ hit.players.length = 1) with h0len | h1len
    · have h0n : pyGet (pySortedDescBool (fun x => x.team == shot.team) hit.players) 0 =
          none := by
        rw [pyGet_zero]
        exact List.getElem?_eq_none (by omega)
      simp [h0n]
    · obtain ⟨a, h0s⟩ : ∃ a,
          pyGet (pySortedDescBool (fun x => x.team == shot.team) hit.players) 0 = some a := by
        rw [pyGet_zero]
        exact ⟨_, List.getElem?_eq_getElem (by omega)⟩
      have h1n : pyGet (pySortedDescBool (fun x => x.team == shot.team) hit.players) 1 =
          none := by
        rw [pyGet_one]
        exact List.getElem?_eq_none (by omega)
      simp [h0s, h1n]

/-- Witness for C10: the scenario's successful row forces its hit sample
to list at least two player positions. -/
theorem claim_C10_two_players_witness :
    ∃ hit, pyGet (splitEvents exDoc.samples).1 (exShot.shot_no - 1) = some hit
      ∧ 2 ≤ hit.players.length :=
  claim_C10_two_players.1 exMatch exSeqs (splitEvents exDoc.samples).1
    (splitEvents exDoc.samples).2 exShot exRow (by decide)

/-- C9 counterexample: the claim admits shot_no as low as -(hit count),
but at shot_no = -1 in a one-hit document the code hits
`hits[-2]`, an IndexError — no row is emitted and the run dies. -/
theorem claim_C9_counterexample :
    shotRow exMatch exSeqs (splitEvents exDoc.samples).1 [] exShotNeg =
      .error "IndexError: list index out of range"
    ∧ exShotNeg.shot_no = -(((splitEvents exDoc.samples).1.length : Int)) := by
  constructor <;> decide

/-- C9 (amended): a shot with 1 - (hit count) ≤ shot_no ≤ 0 in a document
with at least one hit-tagged sample is not dropped by the guard: a row is
emitted, its hit selected by Python negative indexing from the end of the
hits list, and shot_no = 0 selects the last hit. -/
theorem claim_C9_negative_indexing (m : MatchInfo) (seqs : Sequences)
    (hits bounces : List Sample) (shot : Shot) (st : PyDateTime) (hit : Sample)
    (hlen : 1 ≤ hits.length)
    (hlow : 1 - (hits.length : Int) ≤ shot.shot_no)
    (hhigh : shot.shot_no ≤ 0)
    (hhit : hits[((hits.length : Int) + shot.shot_no - 1).toNat]? = some hit)
    (hp : pyStrptime shot.time_utc = some st)
    (hl : (dictLookup m.players shot.team).isSome)
    (hpp : 2 ≤ hit.players.length) :
    pyGet hits (shot.shot_no - 1) = some hit
    ∧ (∃ r, shotRow m seqs hits bounces shot = .ok (some r))
    ∧ (shot.shot_no = 0 → hits[hits.length - 1]? = some hit) := by
  have hg : ¬ shot.shot_no > (hits.length : Int) := by omega
  have hh : pyGet hits (shot.shot_no - 1) = some hit := by
    rw [pyGet_of_neg _ _ (by omega), if_pos (by omega)]
    have : shot.shot_no - 1 + (hits.length : Int) =
        (hits.length : Int) + shot.shot_no - 1 := by ring
    rw [this]
    exact hhit
  refine ⟨hh, ?_, ?_⟩
  · obtain ⟨p0, p1, hok, -, -⟩ :=
      shotRow_emits m seqs hits bounces shot st hit hg hp hh hl hpp
    exact ⟨_, hok⟩
  · intro h0
    have : ((hits.length : Int) + shot.shot_no - 1).toNat = hits.length - 1 := by
      omega
    rw [this] at hhit
    exact hhit

/-- Witness for C9 (amended): shot_no = 0 against the one-hit document
emits a row whose hit is the last (only) hit sample. -/
theorem claim_C9_negative_indexing_witness :
    pyGet (splitEvents exDoc.samples).1 (exShotZero.shot_no - 1) = some exHit
    ∧ (∃ r, shotRow exMatch exSeqs (splitEvents exDoc.samples).1 [] exShotZero = .ok (some r))
    ∧ (exShotZero.shot_no = 0 →
        (splitEvents exDoc.samples).1[(splitEvents exDoc.samples).1.length - 1]? = some exHit) :=
  claim_C9_negative_indexing exMatch exSeqs (splitEvents exDoc.samples).1 [] exShotZero
    ⟨2023, 1, 1, 0, 0, 0, 0⟩ exHit (by decide) (by decide) (by decide) (by decide)
    (by decide) (by decide) (by decide)

/-- C6 counterexample: in the round-trip scenario
(time_utc = "2023-01-01T00:00:00.000000Z", duration = 1) the emitted
shot_end_timestamp is "2023-01-01T00:00:01Z" — strptime's format treats
the trailing Z as a literal and yields a naive datetime, so isoformat()
emits no "+00:00" offset — which differs from the claimed
"2023-01-01T00:00:01+00:00Z". -/
theorem claim_C6_counterexample :
    (shotRow exMatch exSeqs (splitEvents exDoc.samples).1 (splitEvents exDoc.samples).2
        exShot).map (Option.map Row.shot_end_timestamp) =
      .ok (some "2023-01-01T00:00:01Z")
    ∧ ("2023-01-01T00:00:01Z" : String) ≠ "2023-01-01T00:00:01+00:00Z" := by
  constructor <;> decide

/-- C6 (amended): for every emitted row, shot_start_timestamp is the raw
time_utc input unchanged, and shot_end_timestamp is the string obtained by
parsing time_utc with strptime format "%Y-%m-%dT%H:%M:%S.%fZ" (a naive
datetime), adding duration seconds, rendering with the platform's default
ISO-8601 serialization and appending a literal "Z"; in the round-trip
scenario with time_utc = "2023-01-01T00:00:00.000000Z" and duration = 1
the emitted shot_end_timestamp is "2023-01-01T00:00:01Z". -/
theorem claim_C6_timestamps :
    (∀ (m : MatchInfo) (seqs : Sequences) (hits bounces : List Sample)
        (shot : Shot) (st : PyDateTime) (r : Row),
        pyStrptime shot.time_utc = some st →
        shotRow m seqs hits bounces shot = .ok (some r) →
        r.shot_start_timestamp = shot.time_utc
          ∧ r.shot_end_timestamp = pyIsoformat (pyAddSeconds st shot.duration) ++ "Z")
    ∧ pyStrptime "2023-01-01T00:00:00.000000Z" = some ⟨2023, 1, 1, 0, 0, 0, 0⟩
    ∧ pyIsoformat (pyAddSeconds ⟨2023, 1, 1, 0, 0, 0, 0⟩ 1) ++ "Z" =
        "2023-01-01T00:00:01Z" := by
  refine ⟨?_, by decide, by decide⟩
  intro m seqs hits bounces shot st r hp hr
  obtain ⟨st2, hit, pl, p0, p1, hp2, hh, hl, h0, h1, hreq⟩ :=
    shotRow_ok_inv m seqs hits bounces shot r hr
  rw [hp] at hp2
  cases hp2
  subst hreq
  exact ⟨rfl, rfl⟩

/-- Witness for C6 (amended): the scenario's row carries the raw start
string and the recomputed end string. -/
theorem claim_C6_timestamps_witness :
    exRow.shot_start_timestamp = exShot.time_utc
    ∧ exRow.shot_end_timestamp =
        pyIsoformat (pyAddSeconds ⟨2023, 1, 1, 0, 0, 0, 0⟩ exShot.duration) ++ "Z" :=
  claim_C6_timestamps.1 exMatch exSeqs (splitEvents exDoc.samples).1
    (splitEvents exDoc.samples).2 exShot ⟨2023, 1, 1, 0, 0, 0, 0⟩ exRow
    (by decide) (by decide)

/-- C7: an empty accumulated row list makes the run fail fatally (the
header is derived from rows[0]), and, as all fatal conditions, no output
content is produced: CSV content exists only for a successful run, whose
row list is necessarily non-empty. -/
theorem claim_C7_empty_rows_fatal :
    (writeCsv [] = .error "IndexError: list index out of range")
    ∧ (∀ ar : List (String × Doc), transformerRows ar = .ok [] →
        transformer ar = .error "IndexError: list index out of range")
    ∧ (∀ (ar : List (String × Doc)) (out : String), transformer ar = .ok out →
        ∃ rows, transformerRows ar = .ok rows ∧ rows ≠ []) := by
  refine ⟨rfl, ?_, ?_⟩
  · intro ar h
    unfold transformer
    rw [h]
    rfl
  · intro ar out hok
    unfold transformer at hok
    cases htr : transformerRows ar with
    | error e => rw [htr] at hok; exact absurd hok (by simp)
    | ok rows =>
      rw [htr] at hok
      refine ⟨rows, rfl, ?_⟩
      rintro rfl
      exact absurd hok (by simp [writeCsv])

/-- Witness for C7: the empty archive yields no rows, and the run aborts
with the IndexError instead of producing output. -/
theorem claim_C7_empty_rows_fatal_witness :
    transformer [] = .error "IndexError: list index out of range" :=
  claim_C7_empty_rows_fatal.2.1 [] (by rfl)

/-! ## Archive-level lemmas (for the skip and ordering claims) -/

/-- A matched lazy group is non-empty and newline-free. -/
theorem lazyGroup_props : ∀ (t g : List Char), lazyGroup t = some g →
    g ≠ [] ∧ ∀ c ∈ g, c ≠ '\n' := by
  intro t
  induction t with
  | nil => intro g h; exact absurd h (by simp [lazyGroup])
  | cons c t ih =>
    intro g h
    unfold lazyGroup at h
    split at h
    · exact absurd h (by simp)
    · rename_i hnl
      split at h
      · cases h
        exact ⟨by simp, by simpa using hnl⟩
      · revert h
        cases hlg : lazyGroup t with
        | none => intro h; exact absurd h (by simp)
        | some g2 =>
          intro h
          cases h
          obtain ⟨hne, hnl2⟩ := ih g2 hlg
          refine ⟨by simp, ?_⟩
          intro x hx
          rcases List.mem_cons.mp hx with rfl | hx2
          · exact hnl
          · exact hnl2 x hx2

/-- A group returned by the regex search is non-empty and newline-free. -/
theorem reSearch_props : ∀ (s g : List Char), reSearch s = some g →
    g ≠ [] ∧ ∀ c ∈ g, c ≠ '\n' := by
  intro s
  induction s with
  | nil => intro g h; exact absurd h (by simp [reSearch])
  | cons c t ih =>
    intro g h
    unfold reSearch at h
    split at h
    · revert h
      cases hlg : lazyGroup ((c :: t).drop 5) with
      | none => intro h; exact ih g h
      | some g2 =>
        intro h
        cases h
        exact lazyGroup_props _ _ hlg
    · exact ih g h

/-- The lazy group matches any non-empty newline-free text followed by the
`.json` literal. -/
theorem lazyGroup_append_isSome : ∀ g : List Char, g ≠ [] →
    (∀ c ∈ g, c ≠ '\n') → (lazyGroup (g ++ ".json".toList)).isSome := by
  intro g
  induction g with
  | nil => intro h; exact absurd rfl h
  | cons c g ih =>
    intro _ hnl
    have hstep : lazyGroup ((c :: g) ++ ".json".toList) =
        if c = '\n' then none
        else if ".json".toList.isPrefixOf (g ++ ".json".toList) then some [c]
        else
          match lazyGroup (g ++ ".json".toList) with
          | some g2 => some (c :: g2)
          | none => none := rfl
    rw [hstep, if_neg (hnl c (by simp))]
    by_cases hpre : ".json".toList.isPrefixOf (g ++ ".json".toList) = true
    · rw [if_pos hpre]
      simp
    · rw [if_neg hpre]
      have hg : g ≠ [] := by
        rintro rfl
        exact hpre (by decide)
      have hs := ih hg (fun x hx => hnl x (by simp [hx]))
      revert hs
      cases lazyGroup (g ++ ".json".toList) with
      | none => intro h; exact absurd h (by simp)
      | some g2 => intro _; simp

/-- A canonical name `data/<g>.json` built from a matched group is itself
matched by the search. -/
theorem reSearch_canonical_isSome (g : List Char) (hne : g ≠ [])
    (hnl : ∀ c ∈ g, c ≠ '\n') :
    (reSearch ("data/".toList ++ g ++ ".json".toList)).isSome := by
  have hcons : "data/".toList ++ g ++ ".json".toList =
      'd' :: ("ata/".toList ++ g ++ ".json".toList) := by simp
  rw [hcons]
  unfold reSearch
  rw [if_pos ?hpre]
  case hpre =>
    rw [← hcons]
    simp only [List.isPrefixOf_iff_prefix, List.append_assoc]
    exact List.prefix_append _ _
  have hdrop : ('d' :: ("ata/".toList ++ g ++ ".json".toList)).drop 5 =
      g ++ ".json".toList := by
    rw [← hcons]
    simp
  rw [hdrop]
  have := lazyGroup_append_isSome g hne hnl
  revert this
  cases lazyGroup (g ++ ".json".toList) with
  | none => intro h; exact absurd h (by simp)
  | some g2 => intro _; simp

/-- String-level corollary: a reconstructed `data/<g>.json` name always
matches the pattern when `g` came from a match. -/
theorem reSearchStr_canonical (n g : String) (h : reSearchStr n = some g) :
    (reSearchStr ("data/" ++ g ++ ".json")).isSome := by
  unfold reSearchStr at h ⊢
  revert h
  cases hrs : reSearch n.toList with
  | none => intro h; exact absurd h (by simp)
  | some g2 =>
    intro h
    have h2 : String.mk g2 = g :=
      Option.some.inj (show (some (String.mk g2) : Option String) = some g from h)
    obtain ⟨hne, hnl⟩ := reSearch_props _ _ hrs
    have hdata : ("data/" ++ g ++ ".json").toList =
        "data/".toList ++ g2 ++ ".json".toList := by
      subst h2
      show ("data/" ++ String.mk g2 ++ ".json").data =
        "data/".data ++ g2 ++ ".json".data
      rw [String.data_append, String.data_append]
    rw [hdata]
    have := reSearch_canonical_isSome g2 hne hnl
    revert this
    cases reSearch ("data/".toList ++ g2 ++ ".json".toList) with
    | none => intro h2; exact absurd h2 (by simp)
    | some _ => intro _; simp

/-- Inserting a non-matching name anywhere leaves the collection loop's
result unchanged. -/
theorem collectEntries_skip (n : String) (h : reSearchStr n = none) :
    ∀ names1 names2 : List String,
      collectEntries (names1 ++ n :: names2) = collectEntries (names1 ++ names2) := by
  intro names1 names2
  induction names1 with
  | nil =>
    show collectEntries (n :: names2) = collectEntries names2
    conv_lhs => rw [collectEntries]
    rw [h]
  | cons x xs ih =>
    show collectEntries (x :: (xs ++ n :: names2)) = collectEntries (x :: (xs ++ names2))
    unfold collectEntries
    rw [ih]

/-- Every collected pair records a name of the input list together with its
regex group and parsed key. -/
theorem collectEntries_mem : ∀ (fl : List String) (ps : List (List Int × String)),
    collectEntries fl = .ok ps → ∀ p ∈ ps,
      ∃ nm ∈ fl, reSearchStr nm = some p.2 ∧ parseSegs p.2 = some p.1 := by
  intro fl
  induction fl with
  | nil =>
    intro ps h p hp
    cases h
    simp at hp
  | cons x xs ih =>
    intro ps h p hp
    unfold collectEntries at h
    split at h
    · obtain ⟨nm, hnm, hx⟩ := ih ps h p hp
      exact ⟨nm, by simp [hnm], hx⟩
    · rename_i g hrs
      split at h
      · exact absurd h (by simp)
      · rename_i key hpar
        split at h
        · exact absurd h (by simp)
        · rename_i tl htl
          cases h
          rcases List.mem_cons.mp hp with rfl | hp2
          · exact ⟨x, by simp, hrs, hpar⟩
          · obtain ⟨nm, hnm, hx⟩ := ih tl htl p hp2
            exact ⟨nm, by simp [hnm], hx⟩

/-- `find?` skips over a middle element the test rejects. -/
theorem find?_middle {α : Type} (p : α → Bool) (e : α) (he : p e = false) :
    ∀ a b : List α, (a ++ e :: b).find? p = (a ++ b).find? p := by
  intro a b
  induction a with
  | nil =>
    show (e :: b).find? p = b.find? p
    exact List.find?_cons_of_neg _ (by simp [he])
  | cons x xs ih =>
    by_cases hx : p x = true
    · simp [List.find?_cons_of_pos _ hx]
    · simp only [List.cons_append]
      rw [List.find?_cons_of_neg _ (by simp [hx]),
        List.find?_cons_of_neg _ (by simp [hx]), ih]

/-- A zip member whose name differs from the requested one does not affect
the lookup. -/
theorem lookupZip_middle (ar1 ar2 : List (String × Doc)) (e : String × Doc)
    (n : String) (hne : e.1 ≠ n) :
    lookupZip (ar1 ++ e :: ar2) n = lookupZip (ar1 ++ ar2) n := by
  unfold lookupZip
  have hrev1 : (ar1 ++ e :: ar2).reverse = ar2.reverse ++ e :: ar1.reverse := by
    simp
  have hrev2 : (ar1 ++ ar2).reverse = ar2.reverse ++ ar1.reverse := by
    simp
  rw [hrev1, hrev2, find?_middle _ e (by simp [hne]) _ _]

/-- Pointwise equal `Except`-valued bodies give equal `mapM` runs. -/
theorem mapM_congr_except {α β : Type} (f g2 : α → Except String β) (l : List α)
    (h : ∀ a ∈ l, f a = g2 a) : l.mapM f = l.mapM g2 := by
  induction l with
  | nil => rfl
  | cons x xs ih =>
    rw [List.mapM_cons, List.mapM_cons, h x (by simp),
      ih (fun a ha => h a (by simp [ha]))]

/-- Stable insertion permutes to consing. -/
theorem insertAsc_perm (x : List Int × String) :
    ∀ l : List (List Int × String), (insertAsc x l).Perm (x :: l) := by
  intro l
  induction l with
  | nil => exact List.Perm.refl _
  | cons y ys ih =>
    unfold insertAsc
    by_cases hc : seqLt x.1 y.1 = true
    · rw [if_pos hc]
    · rw [if_neg hc]
      exact (ih.cons y).trans (List.Perm.swap x y ys)

/-- The insertion sort of the collection pairs permutes its input. -/
theorem sortPairs_perm (ps : List (List Int × String)) : (sortPairs ps).Perm ps := by
  suffices h : ∀ acc, (ps.foldl (fun acc x => insertAsc x acc) acc).Perm (acc ++ ps) by
    simpa [sortPairs] using h []
  induction ps with
  | nil => intro acc; simp
  | cons x xs ih =>
    intro acc
    rw [List.foldl_cons]
    refine (ih (insertAsc x acc)).trans ?_
    refine (List.Perm.append_right xs (insertAsc_perm x acc)).trans ?_
    simpa using List.perm_middle.symm

/-- C8: an archive entry that does not match `data/<name>.json` is skipped
silently: the sorted name list, the yielded document sequence, and the
whole run's outcome are the same with or without it — it contributes no
rows, raises no error, and does not disturb the rows of matching entries. -/
theorem claim_C8_nonmatching_skipped (name : String) (doc : Doc)
    (ar1 ar2 : List (String × Doc)) (h : reSearchStr name = none) :
    sort_files ((ar1 ++ (name, doc) :: ar2).map (fun e => e.1)) =
      sort_files ((ar1 ++ ar2).map (fun e => e.1))
    ∧ files_content (ar1 ++ (name, doc) :: ar2) = files_content (ar1 ++ ar2)
    ∧ transformer (ar1 ++ (name, doc) :: ar2) = transformer (ar1 ++ ar2) := by
  have hmap : (ar1 ++ (name, doc) :: ar2).map (fun e => e.1) =
      ar1.map (fun e => e.1) ++ name :: ar2.map (fun e => e.1) := by simp
  have hmap2 : (ar1 ++ ar2).map (fun e => e.1) =
      ar1.map (fun e => e.1) ++ ar2.map (fun e => e.1) := by simp
  have hsf : sort_files ((ar1 ++ (name, doc) :: ar2).map (fun e => e.1)) =
      sort_files ((ar1 ++ ar2).map (fun e => e.1)) := by
    unfold sort_files
    rw [hmap, hmap2, collectEntries_skip name h]
  have hfc : files_content (ar1 ++ (name, doc) :: ar2) = files_content (ar1 ++ ar2) := by
    unfold files_content
    rw [hsf, hmap2]
    cases hs : sort_files (ar1.map (fun e => e.1) ++ ar2.map (fun e => e.1)) with
    | error e => rfl
    | ok names =>
      apply mapM_congr_except
      intro g hg
      have hx : lookupZip (ar1 ++ (name, doc) :: ar2) ("data/" ++ g ++ ".json") =
          lookupZip (ar1 ++ ar2) ("data/" ++ g ++ ".json") := by
        apply lookupZip_middle
        intro hn
        unfold sort_files at hs
        revert hs
        cases hce : collectEntries (ar1.map (fun e => e.1) ++ ar2.map (fun e => e.1)) with
        | error e2 => intro hs; exact absurd hs (by simp)
        | ok ps =>
          intro hs
          have hnames : names = (sortPairs ps).map (fun p => p.2) :=
            (Except.ok.inj hs).symm
          rw [hnames] at hg
          obtain ⟨p2, hp2mem, hp2g⟩ := List.mem_map.mp hg
          have hp2ps : p2 ∈ ps := (sortPairs_perm ps).mem_iff.mp hp2mem
          obtain ⟨nm, hnmmem, hnm, hpar⟩ := collectEntries_mem _ ps hce p2 hp2ps
          rw [hp2g] at hnm
          have hiso := reSearchStr_canonical nm g hnm
          rw [← hn, h] at hiso
          exact absurd hiso (by simp)
      rw [hx]
  refine ⟨hsf, hfc, ?_⟩
  unfold transformer transformerRows
  rw [hfc]

/-- Witness for C8: a manifest entry contributes nothing and changes
nothing. -/
theorem claim_C8_nonmatching_skipped_witness :
    transformer ([("data/1.json", exDoc)] ++ ("manifest.txt", exDoc) :: []) =
      transformer ([("data/1.json", exDoc)] ++ []) :=
  (claim_C8_nonmatching_skipped "manifest.txt" exDoc [("data/1.json", exDoc)] []
    (by decide)).2.2

/-! ## Ordering lemmas for the integer-tuple sort key -/

theorem seqLt_asymm : ∀ a b : List Int, seqLt a b = true → seqLt b a = false := by
  intro a
  induction a with
  | nil =>
    intro b h
    cases b with
    | nil => exact absurd h (by simp [seqLt])
    | cons y ys => rfl
  | cons x xs ih =>
    intro b h
    cases b with
    | nil => exact absurd h (by simp [seqLt])
    | cons y ys =>
      unfold seqLt at h ⊢
      by_cases h1 : x < y
      · rw [if_neg (by omega : ¬ y < x), if_pos h1]
      · by_cases h2 : y < x
        · rw [if_neg h1, if_pos h2] at h
          exact absurd h (by simp)
        · rw [if_neg h1, if_neg h2] at h
          rw [if_neg h2, if_neg h1]
          exact ih ys h

theorem seqLt_trans : ∀ a b c : List Int, seqLt a b = true → seqLt b c = true →
    seqLt a c = true := by
  intro a
  induction a with
  | nil =>
    intro b c hab hbc
    cases b with
    | nil => exact absurd hab (by simp [seqLt])
    | cons y ys =>
      cases c with
      | nil => exact absurd hbc (by simp [seqLt])
      | cons z zs => simp [seqLt]
  | cons x xs ih =>
    intro b c hab hbc
    cases b with
    | nil => exact absurd hab (by simp [seqLt])
    | cons y ys =>
      cases c with
      | nil => exact absurd hbc (by simp [seqLt])
      | cons z zs =>
        unfold seqLt at hab hbc ⊢
        by_cases h1 : x < y
        · by_cases h2 : y < z
          · rw [if_pos (by omega : x < z)]
          · by_cases h3 : z < y
            · rw [if_neg h2, if_pos h3] at hbc
              exact absurd hbc (by simp)
            · rw [if_pos (by omega : x < z)]
        · by_cases h4 : y < x
          · rw [if_neg h1, if_pos h4] at hab
            exact absurd hab (by simp)
          · rw [if_neg h1, if_neg h4] at hab
            by_cases h2 : y < z
            · rw [if_pos (by omega : x < z)]
            · by_cases h3 : z < y
              · rw [if_neg h2, if_pos h3] at hbc
                exact absurd hbc (by simp)
              · rw [if_neg h2, if_neg h3] at hbc
                rw [if_neg (by omega : ¬ x < z), if_neg (by omega : ¬ z < x)]
                exact ih ys zs hab hbc

theorem seqLt_total : ∀ a b : List Int, seqLt a b = true ∨ seqLt b a = true ∨ a = b := by
  intro a
  induction a with
  | nil =>
    intro b
    cases b with
    | nil => right; right; rfl
    | cons y ys => left; rfl
  | cons x xs ih =>
    intro b
    cases b with
    | nil => right; left; rfl
    | cons y ys =>
      by_cases h1 : x < y
      · left; unfold seqLt; rw [if_pos h1]
      · by_cases h2 : y < x
        · right; left; unfold seqLt; rw [if_pos h2]
        · have hxy : x = y := by omega
          subst hxy
          rcases ih ys with h | h | h
          · left; unfold seqLt; rw [if_neg h1, if_neg h2]; exact h
          · right; left; unfold seqLt; rw [if_neg h2, if_neg h1]; exact h
          · right; right; rw [h]

/-- Stable insertion preserves (non-strict) sortedness of the pairs. -/
theorem insertAsc_pairwise (x : List Int × String) :
    ∀ l, List.Pairwise (fun p q => seqLt q.1 p.1 = false) l →
      List.Pairwise (fun p q => seqLt q.1 p.1 = false) (insertAsc x l) := by
  intro l
  induction l with
  | nil => intro _; simp [insertAsc]
  | cons y ys ih =>
    intro h
    rcases List.pairwise_cons.mp h with ⟨hy, hys⟩
    unfold insertAsc
    by_cases hc : seqLt x.1 y.1 = true
    · rw [if_pos hc]
      refine List.pairwise_cons.mpr ⟨?_, h⟩
      intro z hz
      rcases List.mem_cons.mp hz with rfl | hz2
      · exact seqLt_asymm _ _ hc
      · by_cases hzx : seqLt z.1 x.1 = true
        · have h1 : seqLt z.1 y.1 = true := seqLt_trans _ _ _ hzx hc
          have h2 := hy z hz2
          rw [h1] at h2
          exact absurd h2 (by simp)
        · cases hb : seqLt z.1 x.1 with
          | false => rfl
          | true => exact absurd hb hzx
    · rw [if_neg hc]
      refine List.pairwise_cons.mpr ⟨?_, ih hys⟩
      intro z hz
      have hz2 := (insertAsc_perm x ys).mem_iff.mp hz
      rcases List.mem_cons.mp hz2 with rfl | hz3
      · cases hb : seqLt z.1 y.1 with
        | false => rfl
        | true => exact absurd hb hc
      · exact hy z hz3

/-- The insertion sort of the pairs is sorted (non-strictly). -/
theorem sortPairs_sorted (ps : List (List Int × String)) :
    List.Pairwise (fun p q => seqLt q.1 p.1 = false) (sortPairs ps) := by
  suffices h : ∀ acc, List.Pairwise (fun p q => seqLt q.1 p.1 = false) acc →
      List.Pairwise (fun p q => seqLt q.1 p.1 = false)
        (ps.foldl (fun acc x => insertAsc x acc) acc) by
    simpa [sortPairs] using h [] (by simp)
  induction ps with
  | nil => intro acc h; simpa using h
  | cons x xs ih =>
    intro acc h
    rw [List.foldl_cons]
    exact ih _ (insertAsc_pairwise x acc h)

/-- Pairwise-distinct keys upgrade the sort to strict ascending order. -/
theorem sortPairs_strict (l : List (List Int × String))
    (hs : List.Pairwise (fun p q => seqLt q.1 p.1 = false) l)
    (hnd : List.Pairwise (fun p q => p.1 ≠ q.1) l) :
    List.Pairwise (fun p q => seqLt p.1 q.1 = true) l := by
  have hand := hs.and hnd
  refine hand.imp ?_
  intro p q hpq
  rcases seqLt_total p.1 q.1 with h | h | h
  · exact h
  · rw [hpq.1] at h
    exact absurd h (by simp)
  · exact absurd h hpq.2

/-- Two permuted pair lists with the same pairwise-distinct keys sort to
the same list. -/
theorem sortPairs_eq_of_perm (ps1 ps2 : List (List Int × String))
    (hperm : ps1.Perm ps2)
    (hnd : List.Pairwise (fun p q => p.1 ≠ q.1) ps1) :
    sortPairs ps1 = sortPairs ps2 := by
  have hp1 : (sortPairs ps1).Perm (sortPairs ps2) :=
    (sortPairs_perm ps1).trans (hperm.trans (sortPairs_perm ps2).symm)
  have hnd1 : List.Pairwise (fun p q => p.1 ≠ q.1) (sortPairs ps1) :=
    ((sortPairs_perm ps1).pairwise_iff (fun h => Ne.symm h)).mpr hnd
  have hnd2 : List.Pairwise (fun p q => p.1 ≠ q.1) (sortPairs ps2) :=
    ((sortPairs_perm ps2).pairwise_iff (fun h => Ne.symm h)).mpr ((hperm.pairwise_iff (fun h => Ne.symm h)).mp hnd)
  have hstrict1 := sortPairs_strict _ (sortPairs_sorted ps1) hnd1
  have hstrict2 := sortPairs_strict _ (sortPairs_sorted ps2) hnd2
  haveI : IsAntisymm (List Int × String) (fun p q => seqLt p.1 q.1 = true) :=
    ⟨fun a b h1 h2 => by
      rw [seqLt_asymm _ _ h1] at h2
      exact absurd h2 (by simp)⟩
  exact List.eq_of_perm_of_sorted hp1 hstrict1 hstrict2

/-- Pure form of the collection loop when every matching entry parses. -/
def pureCollect (fl : List String) : List (List Int × String) :=
  fl.filterMap (fun n =>
    (reSearchStr n).bind (fun g => (parseSegs g).map (fun k => (k, g))))

/-- When no matching entry has a non-numeric segment, the collection loop
succeeds with the pure form. -/
theorem collectEntries_eq_ok : ∀ fl : List String,
    (∀ n ∈ fl, ∀ g, reSearchStr n = some g → (parseSegs g).isSome) →
    collectEntries fl = .ok (pureCollect fl) := by
  intro fl
  induction fl with
  | nil => intro _; rfl
  | cons x xs ih =>
    intro h
    have ihh := ih (fun n hn g hg => h n (by simp [hn]) g hg)
    conv_lhs => rw [collectEntries]
    cases hrs : reSearchStr x with
    | none =>
      rw [ihh]
      simp [pureCollect, List.filterMap_cons, hrs]
    | some g =>
      obtain ⟨key, hkey⟩ := Option.isSome_iff_exists.mp (h x (by simp) g hrs)
      show (match parseSegs g with
        | none => Except.error "ValueError: invalid literal for int() with base 10"
        | some key =>
          match collectEntries xs with
          | Except.error e => Except.error e
          | Except.ok tl => Except.ok ((key, g) :: tl)) =
        Except.ok (pureCollect (x :: xs))
      rw [hkey, ihh]
      simp [pureCollect, List.filterMap_cons, hrs, hkey]

/-- Pairwise relations survive `filterMap` when the function transports
them. -/
theorem pairwise_filterMap_of {α β : Type} {R : α → α → Prop} {S : β → β → Prop}
    (f : α → Option β)
    (H : ∀ a b, R a b → ∀ x, f a = some x → ∀ y, f b = some y → S x y) :
    ∀ l : List α, List.Pairwise R l → List.Pairwise S (l.filterMap f) := by
  intro l
  induction l with
  | nil => intro _; simp
  | cons a l ih =>
    intro h
    rcases List.pairwise_cons.mp h with ⟨ha, hl⟩
    rw [List.filterMap_cons]
    cases hfa : f a with
    | none => exact ih hl
    | some x =>
      refine List.pairwise_cons.mpr ⟨?_, ih hl⟩
      intro y hy
      obtain ⟨b, hb, hfb⟩ := List.mem_filterMap.mp hy
      exact H a b (ha b hb) x hfa y hfb

/-- With at most one element accepted, `find?` is permutation-invariant. -/
theorem find?_eq_of_perm_of_unique {α : Type} (p : α → Bool) (l1 l2 : List α)
    (hperm : l1.Perm l2)
    (hu : ∀ a ∈ l1, ∀ b ∈ l1, p a = true → p b = true → a = b) :
    l1.find? p = l2.find? p := by
  cases hf : l1.find? p with
  | none =>
    rw [List.find?_eq_none] at hf
    exact (List.find?_eq_none.mpr (fun x hx => hf x (hperm.mem_iff.mpr hx))).symm
  | some a =>
    have hpa := List.find?_some hf
    have hmem := List.mem_of_find?_eq_some hf
    cases hf2 : l2.find? p with
    | none =>
      rw [List.find?_eq_none] at hf2
      exact absurd hpa (hf2 a (hperm.mem_iff.mp hmem))
    | some b =>
      have hpb := List.find?_some hf2
      have hmemb := List.mem_of_find?_eq_some hf2
      rw [hu a hmem b (hperm.mem_iff.mpr hmemb) hpa hpb]

/-- A pairwise key-distinct list determines elements by their key. -/
theorem pairwise_ne_unique {α β : Type} (key : α → β) :
    ∀ l : List α, List.Pairwise (fun a b => key a ≠ key b) l →
      ∀ a ∈ l, ∀ b ∈ l, key a = key b → a = b := by
  intro l
  induction l with
  | nil => intro _ a ha; simp at ha
  | cons x xs ih =>
    intro h a ha b hb hk
    rcases List.pairwise_cons.mp h with ⟨hx, hxs⟩
    rcases List.mem_cons.mp ha with rfl | ha2 <;> rcases List.mem_cons.mp hb with rfl | hb2
    · rfl
    · exact absurd hk (hx b hb2)
    · exact absurd hk.symm (hx a ha2)
    · exact ih hxs a ha2 b hb2 hk

/-- With unique names, zip lookup is permutation-invariant. -/
theorem lookupZip_eq_of_perm (ar1 ar2 : List (String × Doc)) (hperm : ar1.Perm ar2)
    (hu : ∀ e1 ∈ ar1, ∀ e2 ∈ ar1, e1.1 = e2.1 → e1 = e2) (n : String) :
    lookupZip ar1 n = lookupZip ar2 n := by
  unfold lookupZip
  rw [find?_eq_of_perm_of_unique _ ar1.reverse ar2.reverse
    (ar1.reverse_perm.trans (hperm.trans ar2.reverse_perm.symm))
    (fun a ha b hb hpa hpb =>
      hu a (by simpa using ha) b (by simpa using hb)
        ((eq_of_beq hpa).trans (eq_of_beq hpb).symm))]

/-- Keeping rows per document and joining gives exactly the main loop's
accumulated list: the output is grouped by source document, in document
order. -/
theorem processDocsAux_eq_join : ∀ (docs : List (String × Doc)) (m0 : Option MatchInfo),
    processDocsAux m0 docs = (docRowLists m0 docs).map List.flatten := by
  intro docs
  induction docs with
  | nil => intro m0; rfl
  | cons e rest ih =>
    intro m0
    have hbody : ∀ m : MatchInfo,
        (match processDoc m e.2 with
          | Except.error er => Except.error er
          | Except.ok rs =>
            match processDocsAux (some m) rest with
            | Except.error er => Except.error er
            | Except.ok rest2 => Except.ok (rs ++ rest2)) =
        Except.map List.flatten
          (match processDoc m e.2 with
            | Except.error er => Except.error er
            | Except.ok rs =>
              match docRowLists (some m) rest with
              | Except.error er => Except.error er
              | Except.ok rest2 => Except.ok (rs :: rest2)) := by
      intro m
      cases hpd : processDoc m e.2 with
      | error er => rfl
      | ok rs =>
        rw [ih (some m)]
        cases hdr : docRowLists (some m) rest with
        | error er => rfl
        | ok rest2 => rfl
    cases m0 with
    | some m => exact hbody m
    | none =>
      cases hmd : e.2.matchData with
      | none => simp [processDocsAux, docRowLists, hmd, Except.map]
      | some m =>
        have h1 : processDocsAux none (e :: rest) =
            (match processDoc m e.2 with
              | Except.error er => Except.error er
              | Except.ok rs =>
                match processDocsAux (some m) rest with
                | Except.error er => Except.error er
                | Except.ok rest2 => Except.ok (rs ++ rest2)) := by
          conv_lhs => rw [processDocsAux]
          rw [hmd]
        have h2 : docRowLists none (e :: rest) =
            (match processDoc m e.2 with
              | Except.error er => Except.error er
              | Except.ok rs =>
                match docRowLists (some m) rest with
                | Except.error er => Except.error er
                | Except.ok rest2 => Except.ok (rs :: rest2)) := by
          conv_lhs => rw [docRowLists]
          rw [hmd]
        rw [h1, h2]
        exact hbody m

/-- The integer-tuple key of an archive entry, when its name matches the
pattern and its segments parse. -/
def entryKey (e : String × Doc) : Option (List Int) :=
  (reSearchStr e.1).bind parseSegs

/-- Strict ascending order on yielded names: both parse and the first
tuple is lexicographically smaller. -/
def nameKeyLt (a b : String) : Prop :=
  ∃ ka kb, parseSegs a = some ka ∧ parseSegs b = some kb ∧ seqLt ka kb = true

/-- Every pair the sorter emits carries its own parse evidence. -/
theorem sortPairs_mem_parse (fl : List String) (p : List Int × String)
    (hp : p ∈ sortPairs (pureCollect fl)) : parseSegs p.2 = some p.1 := by
  have hp2 : p ∈ pureCollect fl := (sortPairs_perm _).mem_iff.mp hp
  obtain ⟨n, hn, hf⟩ := List.mem_filterMap.mp hp2
  revert hf
  cases hrs : reSearchStr n with
  | none => intro hf; exact absurd hf (by simp)
  | some g =>
    intro hf
    have hf2 : Option.map (fun k => (k, g)) (parseSegs g) = some p := hf
    cases hpar : parseSegs g with
    | none =>
      rw [hpar] at hf2
      exact absurd hf2 (by simp)
    | some k =>
      rw [hpar] at hf2
      have hf3 : ((k, g) : List Int × String) = p :=
        Option.some.inj (by simpa using hf2)
      rw [← hf3]
      exact hpar

/-- The collection function links a produced pair to its name's key and
group. -/
theorem collect_fun_key (n : String) (p : List Int × String)
    (hf : ((reSearchStr n).bind fun g => (parseSegs g).map (fun k => (k, g))) = some p) :
    (reSearchStr n).bind parseSegs = some p.1 ∧ reSearchStr n = some p.2 := by
  cases hrs : reSearchStr n with
  | none => rw [hrs] at hf; exact absurd hf (by simp)
  | some g =>
    rw [hrs] at hf
    have hf2 : Option.map (fun k => (k, g)) (parseSegs g) = some p := hf
    cases hpar : parseSegs g with
    | none => rw [hpar] at hf2; exact absurd hf2 (by simp)
    | some k =>
      rw [hpar] at hf2
      have hf3 : ((k, g) : List Int × String) = p := Option.some.inj (by simpa using hf2)
      subst hf3
      exact ⟨by simp [hpar], by simp⟩

/-- C1: under the input contract — every entry is a canonical
`data/<g>.json` name whose segments parse, with pairwise-distinct integer
tuples — the yielded name sequence is strictly ascending in tuple order,
and the document sequence, the whole output, and the per-document row
grouping are independent of the order of entries inside the archive. -/
theorem claim_C1_ordering (ar1 ar2 : List (String × Doc))
    (hperm : ar1.Perm ar2)
    (hcanon : ∀ e ∈ ar1, ∃ g k, reSearchStr e.1 = some g ∧ parseSegs g = some k ∧
        e.1 = "data/" ++ g ++ ".json")
    (hkeys : List.Pairwise (fun e1 e2 => entryKey e1 ≠ entryKey e2) ar1) :
    (∃ names, sort_files (ar1.map (fun e => e.1)) = .ok names ∧
        List.Pairwise nameKeyLt names)
    ∧ files_content ar1 = files_content ar2
    ∧ transformer ar1 = transformer ar2
    ∧ (∀ docs rows, files_content ar1 = .ok docs → transformerRows ar1 = .ok rows →
        ∃ parts, docRowLists none docs = .ok parts ∧ rows = parts.flatten) := by
  have hpre1 : ∀ n ∈ ar1.map (fun e => e.1), ∀ g, reSearchStr n = some g →
      (parseSegs g).isSome := by
    intro n hn g hg
    obtain ⟨e, he, rfl⟩ := List.mem_map.mp hn
    obtain ⟨g0, k0, hg0, hk0, -⟩ := hcanon e he
    rw [hg0] at hg
    cases Option.some.inj hg
    simp [hk0]
  have hpre2 : ∀ n ∈ ar2.map (fun e => e.1), ∀ g, reSearchStr n = some g →
      (parseSegs g).isSome := by
    intro n hn g hg
    obtain ⟨e, he, rfl⟩ := List.mem_map.mp hn
    obtain ⟨g0, k0, hg0, hk0, -⟩ := hcanon e (hperm.mem_iff.mpr he)
    rw [hg0] at hg
    cases Option.some.inj hg
    simp [hk0]
  have hce1 := collectEntries_eq_ok (ar1.map (fun e => e.1)) hpre1
  have hce2 := collectEntries_eq_ok (ar2.map (fun e => e.1)) hpre2
  have hkeys_names : List.Pairwise
      (fun n1 n2 => (reSearchStr n1).bind parseSegs ≠ (reSearchStr n2).bind parseSegs)
      (ar1.map (fun e => e.1)) := List.pairwise_map.mpr hkeys
  have hndp1 : List.Pairwise (fun p q => p.1 ≠ q.1)
      (pureCollect (ar1.map (fun e => e.1))) := by
    refine pairwise_filterMap_of _ ?_ _ hkeys_names
    intro a b hR x hfa y hfb heq
    exact hR (by rw [(collect_fun_key a x hfa).1, (collect_fun_key b y hfb).1, heq])
  have hpermp : (pureCollect (ar1.map (fun e => e.1))).Perm
      (pureCollect (ar2.map (fun e => e.1))) := by
    unfold pureCollect
    exact (hperm.map (fun e => e.1)).filterMap _
  have hsorteq : sortPairs (pureCollect (ar1.map (fun e => e.1))) =
      sortPairs (pureCollect (ar2.map (fun e => e.1))) :=
    sortPairs_eq_of_perm _ _ hpermp hndp1
  have hsf1 : sort_files (ar1.map (fun e => e.1)) =
      .ok ((sortPairs (pureCollect (ar1.map (fun e => e.1)))).map (fun p => p.2)) := by
    unfold sort_files
    rw [hce1]
  have hsf2 : sort_files (ar2.map (fun e => e.1)) =
      .ok ((sortPairs (pureCollect (ar1.map (fun e => e.1)))).map (fun p => p.2)) := by
    unfold sort_files
    rw [hce2, hsorteq]
  have hu : ∀ e1 ∈ ar1, ∀ e2 ∈ ar1, e1.1 = e2.1 → e1 = e2 := by
    intro e1 he1 e2 he2 hn
    refine pairwise_ne_unique entryKey ar1 hkeys e1 he1 e2 he2 ?_
    unfold entryKey
    rw [hn]
  have hfc : files_content ar1 = files_content ar2 := by
    unfold files_content
    rw [hsf1, hsf2]
    apply mapM_congr_except
    intro g hg
    rw [lookupZip_eq_of_perm ar1 ar2 hperm hu ("data/" ++ g ++ ".json")]
  refine ⟨?_, hfc, ?_, ?_⟩
  · refine ⟨_, hsf1, ?_⟩
    have hnds : List.Pairwise (fun p q => p.1 ≠ q.1)
        (sortPairs (pureCollect (ar1.map (fun e => e.1)))) :=
      ((sortPairs_perm _).pairwise_iff (fun h => Ne.symm h)).mpr hndp1
    have hstrict := sortPairs_strict _ (sortPairs_sorted _) hnds
    refine List.pairwise_map.mpr ?_
    refine List.Pairwise.imp_of_mem ?_ hstrict
    intro p q hp hq hlt
    exact ⟨p.1, q.1, sortPairs_mem_parse _ p hp, sortPairs_mem_parse _ q hq, hlt⟩
  · unfold transformer transformerRows
    rw [hfc]
  · intro docs rows hdocs hrows
    unfold transformerRows at hrows
    rw [hdocs] at hrows
    have hrows2 : processDocsAux none docs = Except.ok rows := hrows
    rw [processDocsAux_eq_join docs none] at hrows2
    cases hdr : docRowLists none docs with
    | error e =>
      rw [hdr] at hrows2
      exact absurd hrows2 (by simp [Except.map])
    | ok parts =>
      rw [hdr] at hrows2
      exact ⟨parts, rfl,
        (Except.ok.inj (show Except.ok parts.flatten = Except.ok rows from hrows2)).symm⟩

/-- A second document (no match object: only the first sorted document's
is read). -/
def exDoc2 : Doc :=
  { matchData := none, sequences := ⟨"2", "1", "1", "1", "1"⟩,
    samples := [exHit, exBounce], shots := [exShot] }

/-- Witness for C1: the archive listing `data/2_0.json` before
`data/1_0.json` yields the same document sequence and the same output as
the archive listing them the other way round. -/
theorem claim_C1_ordering_witness :
    files_content [("data/2_0.json", exDoc2), ("data/1_0.json", exDoc)] =
      files_content [("data/1_0.json", exDoc), ("data/2_0.json", exDoc2)]
    ∧ transformer [("data/2_0.json", exDoc2), ("data/1_0.json", exDoc)] =
      transformer [("data/1_0.json", exDoc), ("data/2_0.json", exDoc2)] := by
  have h := claim_C1_ordering
    [("data/2_0.json", exDoc2), ("data/1_0.json", exDoc)]
    [("data/1_0.json", exDoc), ("data/2_0.json", exDoc2)]
    (by decide)
    (by
      intro e he
      rcases List.mem_cons.mp he with rfl | he2
      · exact ⟨"2_0", [2, 0], by decide, by decide, by decide⟩
      · rcases List.mem_cons.mp he2 with rfl | he3
        · exact ⟨"1_0", [1, 0], by decide, by decide, by decide⟩
        · simp at he3)
    (by decide)
  exact ⟨h.2.1, h.2.2.1⟩
